import Mathlib

/-!
TrackDAO, the track persistence layer of `src/library/dao/trackdao.cpp`

A shallow embedding of `TrackDAO`: the two tables the class reads and writes
(`track_locations`, `library`), the cue store it calls, the heap of
`TrackInfoObject`s it allocates and its cache `m_tracks`.  Every SQL statement
of the source is a list operation on the table it names; rows are kept in
rowid order.

Conventions of the embedding:

* `Q_ASSERT` is live (a debug build): a failed assertion aborts the process,
  which the operations report as `none`.  An operation that aborts inside a
  transaction never commits, so the stored state stays what it was.
* The database is SQLite (`WHERE id==`, last rowid), whose Qt driver does not
  report the size of a result: `QSqlQuery::size()` is `-1`.
* `QVariant::toInt()` yields a C `int` (32 bits, two's complement).  Integer
  columns other than ids are read through it.  Ids are assigned by the store
  from 1 upward and are taken to fit a C `int`, so an id is read as it is.
* The `SELECT` statements execute.  The `INSERT INTO track_locations` of
  `addTrack` fails exactly when the UNIQUE `location` is already present; the
  `INSERT INTO library` of `addTrack` and the `UPDATE library` of
  `updateTrack` execute or fail as a caller-supplied flag says; the other
  writes execute.
-/

namespace Mixxx

/-- A C++ `float` carried as an uninterpreted bit pattern. -/
structure FloatVal where
  bits : Nat
deriving DecidableEq, Repr

/-- A cue point, as handed to and returned by the cue store. -/
structure Cue where
  position : Int
deriving DecidableEq, Repr

/-- One row of the table `track_locations`. -/
structure TrackLocation where
  id : Int
  location : String
  directory : String
  filename : String
  filesize : Int
  fs_deleted : Bool
  needs_verification : Bool
deriving DecidableEq, Repr

/-- One row of the table `library`; `location` holds a `track_locations.id`. -/
structure LibraryRow where
  id : Int
  artist : String
  title : String
  album : String
  year : String
  genre : String
  tracknumber : String
  location : Int
  comment : String
  url : String
  duration : Int
  bitrate : Int
  samplerate : Int
  cuepoint : FloatVal
  bpm : FloatVal
  wavesummaryhex : Option (List Nat)
  channels : Int
  mixxx_deleted : Bool
  header_parsed : Bool
deriving DecidableEq, Repr

/-- Modelled from the spec: the class `TrackInfoObject` (trackinfoobject.h is
not part of the sources).  A mutable in-memory projection of a track record
with an id (`-1` when unassigned) and a dirty flag; every getter and setter of
the source reads or writes the field of its name. -/
structure TrackInfoObject where
  id : Int
  artist : String
  title : String
  album : String
  year : String
  genre : String
  trackNumber : String
  comment : String
  url : String
  duration : Int
  bitrate : Int
  sampleRate : Int
  cuePoint : FloatVal
  bpm : FloatVal
  waveSummary : Option (List Nat)
  channels : Int
  location : String
  filename : String
  length : Int
  headerParsed : Bool
  cuePoints : List Cue
  dirty : Bool
deriving DecidableEq, Repr

/-- The object `new TrackInfoObject()` yields before any setter ran. -/
def TrackInfoObject.fresh : TrackInfoObject :=
  { id := -1, artist := "", title := "", album := "", year := "", genre := "",
    trackNumber := "", comment := "", url := "", duration := 0, bitrate := 0,
    sampleRate := 0, cuePoint := ⟨0⟩, bpm := ⟨0⟩, waveSummary := none,
    channels := 0, location := "", filename := "", length := 0,
    headerParsed := false, cuePoints := [], dirty := false }

/-- The two tables behind `m_database`. -/
structure Database where
  track_locations : List TrackLocation
  library : List LibraryRow
deriving DecidableEq, Repr

/-- Conversions the load path applies to the two float columns:
`(float) value.toInt()` for `cuepoint` and `value.toString().toFloat()` for
`bpm`.  They belong to Qt and are taken as given. -/
structure FloatConv where
  cuepointOfColumn : FloatVal → FloatVal
  bpmOfColumn : FloatVal → FloatVal

/-- State of a `TrackDAO`: the database, the cue store behind `m_cueDao`
(track id ↦ cue points), the objects allocated with `new` (a pointer is an
index into `heap`) and the cache `m_tracks` (track id ↦ pointer). -/
structure TrackDAO where
  m_database : Database
  m_cueDao : List (Int × List Cue)
  heap : List TrackInfoObject
  m_tracks : List (Int × Nat)
deriving DecidableEq, Repr

/-- `QVariant::toInt()` of an integer column: the value as a C `int`, 32 bits
in two's complement. -/
def toInt (v : Int) : Int :=
  (v + 2147483648) % 4294967296 - 2147483648

/-- The values a C `int` holds. -/
@[reducible] def isInt (v : Int) : Prop :=
  -2147483648 ≤ v ∧ v ≤ 2147483647

/-- Modelled from the Qt documentation: `QSqlQuery::size()`, which is `-1` when
the driver cannot report the size of a result, as with SQLite. -/
def QSqlQuery.size {α : Type} (_rows : List α) : Int :=
  -1

/-- Value left in `x` by `while (query.next()) x = value;` started at `init`. -/
def lastValue {α : Type} (init : α) (rows : List α) : α :=
  rows.foldl (fun _ v => v) init

/-- Modelled from the spec: the id the store assigns on insert (the schema is
not part of the sources): one more than the largest id in use, `1` for an
empty table. -/
def lastInsertId (ids : List Int) : Int :=
  ids.foldl max 0 + 1

/-- Modelled from the Qt documentation: `QFileInfo(file).path()`, the file's
path without the file name. -/
def QFileInfo.path (file : String) : String :=
  let cs := file.toList
  if cs.contains '/' then
    let d := ((cs.reverse.dropWhile (fun c => c ≠ '/')).drop 1).reverse
    if d.isEmpty then "/" else String.mk d
  else "."

/-- Modelled from the spec: `CueDAO::saveTrackCues(trackId, pTrack)`, which
persists the object's cue points under the track id. -/
def CueDAO.saveTrackCues (cues : List (Int × List Cue)) (trackId : Int)
    (pTrack : TrackInfoObject) : List (Int × List Cue) :=
  (trackId, pTrack.cuePoints) :: cues.filter (fun e => e.1 ≠ trackId)

/-- Modelled from the spec: `CueDAO::getCuesForTrack(trackId)`, the cue points
stored under the track id. -/
def CueDAO.getCuesForTrack (cues : List (Int × List Cue)) (trackId : Int) : List Cue :=
  match cues.find? (fun e => e.1 = trackId) with
  | some e => e.2
  | none => []

/-- `m_tracks.contains(id)` / `m_tracks[id]` on the cache. -/
def cacheLookup (m : List (Int × Nat)) (id : Int) : Option Nat :=
  (m.find? (fun e => e.1 = id)).map (fun e => e.2)

/-- `m_tracks[id] = p`: a `QMap` keeps one value per key. -/
def cacheInsert (m : List (Int × Nat)) (id : Int) (p : Nat) : List (Int × Nat) :=
  (id, p) :: m.filter (fun e => e.1 ≠ id)

/-- `TrackDAO::getTrackId`:
`SELECT library.id FROM library INNER JOIN track_locations ON library.location
 WHERE track_locations.location=:location`; the first row, else `-1`.
The join condition is the truth value of `library.location`. -/
def TrackDAO.getTrackId (dao : TrackDAO) (location : String) : Int :=
  let query := dao.m_database.library.flatMap (fun t =>
    (dao.m_database.track_locations.filter
      (fun l => t.location ≠ 0 ∧ l.location = location)).map (fun _ => t.id))
  match query with
  | [] => -1
  | libraryTrackId :: _ => libraryTrackId

/-- `TrackDAO::getTrackLocation`:
`SELECT track_locations.location FROM track_locations INNER JOIN library
 ON library.location = track_locations.id WHERE library.id=:id`; the last row,
else the empty string. -/
def TrackDAO.getTrackLocation (dao : TrackDAO) (trackId : Int) : String :=
  let query := dao.m_database.track_locations.flatMap (fun l =>
    (dao.m_database.library.filter
      (fun t => t.location = l.id ∧ t.id = trackId)).map (fun _ => l.location))
  lastValue "" query

/-- `TrackDAO::trackExistsInDatabase`. -/
def TrackDAO.trackExistsInDatabase (dao : TrackDAO) (location : String) : Bool :=
  dao.getTrackId location != -1

/-- The row `addTrack` inserts into `track_locations`. -/
def newTrackLocation (id : Int) (pTrack : TrackInfoObject) : TrackLocation :=
  { id := id, location := pTrack.location,
    directory := QFileInfo.path pTrack.location,
    filename := pTrack.filename, filesize := pTrack.length,
    fs_deleted := false, needs_verification := false }

/-- The row `addTrack` inserts into `library`. -/
def newLibraryRow (id : Int) (trackLocationId : Int) (pTrack : TrackInfoObject) : LibraryRow :=
  { id := id, artist := pTrack.artist, title := pTrack.title, album := pTrack.album,
    year := pTrack.year, genre := pTrack.genre, tracknumber := pTrack.trackNumber,
    location := trackLocationId, comment := pTrack.comment, url := pTrack.url,
    duration := pTrack.duration, bitrate := pTrack.bitrate,
    samplerate := pTrack.sampleRate, cuepoint := pTrack.cuePoint, bpm := pTrack.bpm,
    wavesummaryhex := pTrack.waveSummary, channels := pTrack.channels,
    mixxx_deleted := false, header_parsed := pTrack.headerParsed }

/-- `UPDATE library SET mixxx_deleted=v WHERE id = trackId`. -/
def setMixxxDeleted (library : List LibraryRow) (trackId : Int) (v : Bool) : List LibraryRow :=
  library.map (fun r => if r.id = trackId then { r with mixxx_deleted := v } else r)

/-- First statements of `addTrack`: `INSERT INTO track_locations`, which fails
when the location is already in the table, and then
`SELECT id FROM track_locations WHERE location=:location`; otherwise the last
rowid.  Returns the table and `trackLocationId`. -/
def insertTrackLocation (track_locations : List TrackLocation) (pTrack : TrackInfoObject) :
    List TrackLocation × Int :=
  if track_locations.any (fun l => l.location = pTrack.location) then
    (track_locations,
     lastValue (-1) ((track_locations.filter
        (fun l => l.location = pTrack.location)).map (fun l => l.id)))
  else
    let rowid := lastInsertId (track_locations.map (fun l => l.id))
    (track_locations ++ [newTrackLocation rowid pTrack], rowid)

/-- `TrackDAO::addTrack(TrackInfoObject*)`.  `libraryInsertOk` is the result of
executing `INSERT INTO library`.  Returns the state and the object after the
call; `none` when a `Q_ASSERT` fails. -/
def TrackDAO.addTrack (dao : TrackDAO) (pTrack : TrackInfoObject) (libraryInsertOk : Bool) :
    Option (TrackDAO × TrackInfoObject) :=
  let db := dao.m_database
  let inserted := insertTrackLocation db.track_locations pTrack
  let trackLocationId := inserted.2
  if trackLocationId ≥ 0 then
    if libraryInsertOk then
      let trackId := lastInsertId (db.library.map (fun r => r.id))
      if trackId ≥ 0 then
        let library := db.library ++ [newLibraryRow trackId trackLocationId pTrack]
        let cues := CueDAO.saveTrackCues dao.m_cueDao trackId pTrack
        some ({ dao with
                  m_database := { track_locations := inserted.1,
                                  library := setMixxxDeleted library trackId false },
                  m_cueDao := cues },
              { pTrack with id := trackId, dirty := false })
      else none
    else
      -- m_database.rollback(); return;
      some (dao, pTrack)
  else none

/-- `TrackDAO::removeTrack`. -/
def TrackDAO.removeTrack (dao : TrackDAO) (id : Int) : Option TrackDAO :=
  if id ≥ 0 then
    some { dao with m_database :=
      { dao.m_database with library := setMixxxDeleted dao.m_database.library id true } }
  else none

/-- The `SET` clause of `updateTrack` applied to one row: every column but
`id`, `location` and `mixxx_deleted`. -/
def updateRow (r : LibraryRow) (pTrack : TrackInfoObject) : LibraryRow :=
  { r with artist := pTrack.artist, title := pTrack.title, album := pTrack.album,
           year := pTrack.year, genre := pTrack.genre, tracknumber := pTrack.trackNumber,
           comment := pTrack.comment, url := pTrack.url, duration := pTrack.duration,
           bitrate := pTrack.bitrate, samplerate := pTrack.sampleRate,
           cuepoint := pTrack.cuePoint, bpm := pTrack.bpm,
           wavesummaryhex := pTrack.waveSummary, channels := pTrack.channels,
           header_parsed := pTrack.headerParsed }

/-- `TrackDAO::updateTrack`.  `updateOk` is the result of executing the
`UPDATE library ... WHERE id=trackId`. -/
def TrackDAO.updateTrack (dao : TrackDAO) (pTrack : TrackInfoObject) (updateOk : Bool) :
    Option (TrackDAO × TrackInfoObject) :=
  let trackId := pTrack.id
  if trackId ≥ 0 then
    if updateOk then
      some ({ dao with
                m_database := { dao.m_database with
                  library := dao.m_database.library.map
                    (fun r => if r.id = trackId then updateRow r pTrack else r) },
                m_cueDao := CueDAO.saveTrackCues dao.m_cueDao trackId pTrack },
            { pTrack with dirty := false })
    else some (dao, pTrack)
  else none

/-- `TrackDAO::saveTrack`.  `execOk` is the result of the one write statement
that may fail in the branch taken. -/
def TrackDAO.saveTrack (dao : TrackDAO) (pTrack : TrackInfoObject) (execOk : Bool) :
    Option (TrackDAO × TrackInfoObject) :=
  if pTrack.id ≠ -1 then
    if pTrack.dirty then dao.updateTrack pTrack execOk
    else some (dao, pTrack)
  else dao.addTrack pTrack execOk

/-- The object `getTrackFromDB` builds from one row of the joined read. -/
def trackOfRow (cv : FloatConv) (cues : List (Int × List Cue))
    (row : LibraryRow × TrackLocation) : TrackInfoObject :=
  { TrackInfoObject.fresh with
    id := row.1.id, artist := row.1.artist, title := row.1.title, album := row.1.album,
    year := row.1.year, genre := row.1.genre, trackNumber := row.1.tracknumber,
    comment := row.1.comment, url := row.1.url, duration := toInt row.1.duration,
    bitrate := toInt row.1.bitrate, sampleRate := toInt row.1.samplerate,
    cuePoint := cv.cuepointOfColumn row.1.cuepoint, bpm := cv.bpmOfColumn row.1.bpm,
    waveSummary := some (row.1.wavesummaryhex.getD []),
    channels := toInt row.1.channels, location := row.2.location,
    length := toInt row.2.filesize,
    headerParsed := row.1.header_parsed,
    cuePoints := CueDAO.getCuesForTrack cues row.1.id, dirty := false }

/-- One pass of the loop of `getTrackFromDB`: `track = new TrackInfoObject()`,
the setters, and `m_tracks[trackId] = track`. -/
def getTrackFromDBStep (cv : FloatConv) (acc : Option Nat × TrackDAO)
    (row : LibraryRow × TrackLocation) : Option Nat × TrackDAO :=
  let track := acc.2.heap.length
  (some track,
   { acc.2 with heap := acc.2.heap ++ [trackOfRow cv acc.2.m_cueDao row],
                m_tracks := cacheInsert acc.2.m_tracks row.1.id track })

/-- `TrackDAO::getTrackFromDB`: one new object per row of the query, each
stored in `m_tracks` under its id; the last one is returned (`none` is NULL). -/
def TrackDAO.getTrackFromDB (cv : FloatConv) (dao : TrackDAO)
    (query : List (LibraryRow × TrackLocation)) : Option Nat × TrackDAO :=
  query.foldl (getTrackFromDBStep cv) (none, dao)

/-- The joined read of `getTrack`:
`... FROM Library INNER JOIN track_locations ON library.location =
 track_locations.id WHERE library.id=id`. -/
def selectTrack (db : Database) (id : Int) : List (LibraryRow × TrackLocation) :=
  db.library.flatMap (fun t =>
    (db.track_locations.filter (fun l => t.location = l.id ∧ t.id = id)).map (fun l => (t, l)))

/-- `TrackDAO::getTrack`: the cached pointer when there is one, else the
object built from the joined read. -/
def TrackDAO.getTrack (cv : FloatConv) (dao : TrackDAO) (id : Int) : Option Nat × TrackDAO :=
  match cacheLookup dao.m_tracks id with
  | some p => (some p, dao)
  | none => dao.getTrackFromDB cv (selectTrack dao.m_database id)

/-- `TrackDAO::invalidateTrackLocations`:
`UPDATE track_locations SET needs_verification=1 WHERE directory=:directory`. -/
def TrackDAO.invalidateTrackLocations (dao : TrackDAO) (directory : String) : TrackDAO :=
  { dao with m_database := { dao.m_database with
      track_locations := dao.m_database.track_locations.map
        (fun l => if l.directory = directory
                  then { l with needs_verification := true } else l) } }

/-- `TrackDAO::markTrackLocationAsVerified`:
`UPDATE track_locations SET needs_verification=0, fs_deleted=0
 WHERE location=:location`. -/
def TrackDAO.markTrackLocationAsVerified (dao : TrackDAO) (location : String) : TrackDAO :=
  { dao with m_database := { dao.m_database with
      track_locations := dao.m_database.track_locations.map
        (fun l => if l.location = location
                  then { l with needs_verification := false, fs_deleted := false } else l) } }

/-- `TrackDAO::markUnverifiedTracksAsDeleted`:
`UPDATE track_locations SET fs_deleted=1 WHERE needs_verification=1`. -/
def TrackDAO.markUnverifiedTracksAsDeleted (dao : TrackDAO) : TrackDAO :=
  { dao with m_database := { dao.m_database with
      track_locations := dao.m_database.track_locations.map
        (fun l => if l.needs_verification = true
                  then { l with fs_deleted := true } else l) } }

/-- `TrackDAO::markTrackLocationsAsDeleted`:
`UPDATE track_locations SET fs_deleted=1 WHERE directory=:directory`. -/
def TrackDAO.markTrackLocationsAsDeleted (dao : TrackDAO) (directory : String) : TrackDAO :=
  { dao with m_database := { dao.m_database with
      track_locations := dao.m_database.track_locations.map
        (fun l => if l.directory = directory
                  then { l with fs_deleted := true } else l) } }

/-- The inner query of `detectMovedFiles`:
`SELECT id FROM track_locations WHERE fs_deleted=0 AND filename=:filename AND
 filesize=:filesize`, bound to `filename` and the `int fileSize` read from the
row `old` of the outer query. -/
def moveCandidates (db : Database) (old : TrackLocation) : List TrackLocation :=
  let filename := old.filename
  let fileSize := toInt old.filesize
  db.track_locations.filter
    (fun l => l.fs_deleted = false ∧ l.filename = filename ∧ l.filesize = fileSize)

/-- The three statements `detectMovedFiles` runs once it found a moved track:
`DELETE FROM track_locations WHERE id=:id`,
`DELETE FROM library WHERE location=:location` and
`UPDATE library SET location=:newloc WHERE location=:oldloc`. -/
def repairMove (db : Database) (oldTrackLocationId newTrackLocationId : Int) : Database :=
  { track_locations := db.track_locations.filter (fun l => l.id ≠ oldTrackLocationId),
    library :=
      (db.library.filter (fun t => t.location ≠ newTrackLocationId)).map
        (fun t => if t.location = oldTrackLocationId
                  then { t with location := newTrackLocationId } else t) }

/-- Body of the loop of `detectMovedFiles` for one row of the outer query;
`none` when `Q_ASSERT(query2.size() <= 1)` fails. -/
def detectMovedStep (db : Database) (old : TrackLocation) : Option Database :=
  let oldTrackLocationId := old.id
  let query2 := moveCandidates db old
  if QSqlQuery.size query2 ≤ 1 then
    let newTrackLocationId := lastValue (-1) (query2.map (fun l => l.id))
    if newTrackLocationId ≥ 0 then
      some (repairMove db oldTrackLocationId newTrackLocationId)
    else some db
  else none

/-- The loop of `detectMovedFiles` over the rows of the outer query. -/
def detectMovedLoop : List TrackLocation → Database → Option Database
  | [], db => some db
  | old :: rest, db =>
    match detectMovedStep db old with
    | some db1 => detectMovedLoop rest db1
    | none => none

/-- `TrackDAO::detectMovedFiles`: the loop runs over
`SELECT id, filename, filesize FROM track_locations WHERE fs_deleted=1`
inside one transaction; `none` when a `Q_ASSERT` fails, in which case nothing
is committed. -/
def TrackDAO.detectMovedFiles (dao : TrackDAO) : Option TrackDAO :=
  match detectMovedLoop (dao.m_database.track_locations.filter (fun l => l.fs_deleted = true))
      dao.m_database with
  | some db => some { dao with m_database := db }
  | none => none

/-- I1: every track record's location reference is the id of an existing
row of `track_locations`. -/
@[reducible] def Database.refsValid (db : Database) : Prop :=
  ∀ t ∈ db.library, ∃ l ∈ db.track_locations, l.id = t.location

/-- The primary key of `track_locations`: no two rows share an id. -/
@[reducible] def Database.locationIdsUnique (db : Database) : Prop :=
  (db.track_locations.map (fun l => l.id)).Nodup

/-- The primary key of `library`: no two rows share an id. -/
@[reducible] def Database.trackIdsUnique (db : Database) : Prop :=
  (db.library.map (fun r => r.id)).Nodup

/-- The UNIQUE constraint on `track_locations.location`. -/
@[reducible] def Database.pathsUnique (db : Database) : Prop :=
  (db.track_locations.map (fun l => l.location)).Nodup

/-- Ids assigned by the store are never negative. -/
@[reducible] def Database.locationIdsNonneg (db : Database) : Prop :=
  ∀ l ∈ db.track_locations, 0 ≤ l.id

/-- A call of one of the mutating operations of the DAO. -/
inductive Call where
  | addTrack (pTrack : TrackInfoObject) (libraryInsertOk : Bool)
  | updateTrack (pTrack : TrackInfoObject) (updateOk : Bool)
  | removeTrack (id : Int)
  | detectMovedFiles

/-- State of the DAO after one call.  A call that aborts in a `Q_ASSERT` has
committed nothing and leaves the state as it was. -/
def TrackDAO.applyCall (dao : TrackDAO) : Call → TrackDAO
  | .addTrack pTrack ok => ((dao.addTrack pTrack ok).map (fun r => r.1)).getD dao
  | .updateTrack pTrack ok => ((dao.updateTrack pTrack ok).map (fun r => r.1)).getD dao
  | .removeTrack id => (dao.removeTrack id).getD dao
  | .detectMovedFiles => dao.detectMovedFiles.getD dao

/-- State of the DAO after a sequence of calls. -/
def TrackDAO.run (dao : TrackDAO) (calls : List Call) : TrackDAO :=
  calls.foldl TrackDAO.applyCall dao

/-- A library row with the given id and location reference and empty tags. -/
def plainRow (id location : Int) (mixxx_deleted : Bool) : LibraryRow :=
  { id := id, artist := "", title := "", album := "", year := "", genre := "",
    tracknumber := "", location := location, comment := "", url := "", duration := 0,
    bitrate := 0, samplerate := 0, cuepoint := ⟨0⟩, bpm := ⟨0⟩, wavesummaryhex := none,
    channels := 0, mixxx_deleted := mixxx_deleted, header_parsed := false }

/-- A DAO over the given tables with an empty cue store, heap and cache. -/
def daoOf (track_locations : List TrackLocation) (library : List LibraryRow) : TrackDAO :=
  { m_database := { track_locations := track_locations, library := library },
    m_cueDao := [], heap := [], m_tracks := [] }

/-- Location A of P5: deleted on disk. -/
def locationA : TrackLocation :=
  { id := 1, location := "a.mp3", directory := ".", filename := "song.mp3", filesize := 1000,
    fs_deleted := true, needs_verification := true }

/-- Location B of P5: present on disk, same filename and size as A. -/
def locationB : TrackLocation :=
  { id := 2, location := "b.mp3", directory := ".", filename := "song.mp3", filesize := 1000,
    fs_deleted := false, needs_verification := false }

/-- The store of P5: track 1 at the deleted location A, the stray track 2 at B. -/
def movedFileDao : TrackDAO :=
  daoOf [locationA, locationB] [plainRow 1 1 false, plainRow 2 2 false]

/-- The track of the scenario: `/music/song.mp3`, size 500, not yet persisted. -/
def songTrack : TrackInfoObject :=
  { TrackInfoObject.fresh with
    artist := "Artist", title := "Title", location := "/music/song.mp3",
    filename := "song.mp3", length := 500, dirty := true }

/-- A sequence with every kind of call: a failing and a successful insert, a
removal, an update and a move detection. -/
def sampleCalls : List Call :=
  [.addTrack songTrack false, .addTrack songTrack true, .removeTrack 1,
   .updateTrack { songTrack with id := 2, title := "Other" } true, .detectMovedFiles]

/-- A location deleted on disk, `x.mp3` of size 7. -/
def locationX : TrackLocation :=
  { id := 3, location := "/old/x.mp3", directory := "/old", filename := "x.mp3",
    filesize := 7, fs_deleted := true, needs_verification := true }

/-- The deleted `x.mp3` (location 3, track 1) and two copies present on disk
(locations 4 and 5), each with the track record the scanner added (2 and 3). -/
def ambiguousMoveDao : TrackDAO :=
  daoOf
    [locationX,
     { id := 4, location := "/new/x.mp3", directory := "/new", filename := "x.mp3",
       filesize := 7, fs_deleted := false, needs_verification := false },
     { id := 5, location := "/copy/x.mp3", directory := "/copy", filename := "x.mp3",
       filesize := 7, fs_deleted := false, needs_verification := false }]
    [plainRow 1 3 false, plainRow 2 4 false, plainRow 3 5 false]

/-- I2 on the cache: no track id is held twice. -/
@[reducible] def TrackDAO.cacheUnique (dao : TrackDAO) : Prop :=
  (dao.m_tracks.map (fun e => e.1)).Nodup

/-- Every cached pointer is a live object whose id is its cache key. -/
@[reducible] def TrackDAO.cacheKeyed (dao : TrackDAO) : Prop :=
  ∀ e ∈ dao.m_tracks, (dao.heap[e.2]?).map (fun o => o.id) = some e.1

/-- State of the DAO after `getTrack` was called for each id of the list. -/
def TrackDAO.getTracks (cv : FloatConv) (dao : TrackDAO) (ids : List Int) : TrackDAO :=
  ids.foldl (fun d id => (d.getTrack cv id).2) dao

/-- Conversions that keep the stored value, for the examples. -/
def plainConv : FloatConv :=
  { cuepointOfColumn := fun v => v, bpmOfColumn := fun v => v }

/-- Two locations and one track record, which references the first. -/
def twoLocationsDao : TrackDAO :=
  daoOf
    [{ id := 1, location := "/music/a.mp3", directory := "/music", filename := "a.mp3",
       filesize := 100, fs_deleted := false, needs_verification := false },
     { id := 2, location := "/music/b.mp3", directory := "/music", filename := "b.mp3",
       filesize := 200, fs_deleted := false, needs_verification := false }]
    [plainRow 1 1 false]

/-- A store that knows `/music/song.mp3` (size 400, id 1) and holds the removed
track record 1 for it. -/
def knownSongDao : TrackDAO :=
  daoOf
    [{ id := 1, location := "/music/song.mp3", directory := "/music", filename := "song.mp3",
       filesize := 400, fs_deleted := false, needs_verification := false }]
    [plainRow 1 1 true]

/-- The scenario of the spec: `addTrack`, `removeTrack` of the id assigned,
and `addTrack` of a second object for the same path; `libraryInsertOk` is the
result of the second `INSERT INTO library`.  Returns the first id, the final
state and the second object. -/
def readdAfterRemove (dao : TrackDAO) (pTrack : TrackInfoObject) (libraryInsertOk : Bool) :
    Option (Int × TrackDAO × TrackInfoObject) :=
  match dao.addTrack pTrack true with
  | none => none
  | some (dao1, t1) =>
    match dao1.removeTrack t1.id with
    | none => none
    | some dao2 =>
      match dao2.addTrack pTrack libraryInsertOk with
      | none => none
      | some (dao3, t3) => some (t1.id, dao3, t3)

/-- The object of a persisted track: id 1, edited since it was loaded. -/
def editedTrack : TrackInfoObject :=
  { songTrack with id := 1, title := "Edited", dirty := true }

/-- The `int` members of the object that `addTrack` and `updateTrack` bind hold
C `int`s. -/
@[reducible] def TrackInfoObject.intsInRange (t : TrackInfoObject) : Prop :=
  isInt t.duration ∧ isInt t.bitrate ∧ isInt t.sampleRate ∧ isInt t.channels ∧
    isInt t.length

/-- State after `markTrackLocationAsVerified` was called for each observed
path, in the order the scanner saw them. -/
def TrackDAO.markAllVerified (dao : TrackDAO) (observed : List String) : TrackDAO :=
  observed.foldl TrackDAO.markTrackLocationAsVerified dao

/-- One scan cycle over a directory: `invalidateTrackLocations`, then
`markTrackLocationAsVerified` for each observed path, then
`markUnverifiedTracksAsDeleted`. -/
def TrackDAO.scanCycle (dao : TrackDAO) (directory : String) (observed : List String) :
    TrackDAO :=
  ((dao.invalidateTrackLocations directory).markAllVerified observed).markUnverifiedTracksAsDeleted

/-- A location row without its two verification flags. -/
def TrackLocation.withoutFlags (l : TrackLocation) : TrackLocation :=
  { l with needs_verification := false, fs_deleted := false }

/-- Two copies of `song.mp3` (size 1000), both deleted on disk, and one copy
present on disk; track 1 and track 3 at the deleted copies, the stray track 2
at the present one. -/
def twoDeletedCopiesDao : TrackDAO :=
  daoOf
    [{ id := 1, location := "/x/song.mp3", directory := "/x", filename := "song.mp3",
       filesize := 1000, fs_deleted := true, needs_verification := true },
     { id := 2, location := "/z/song.mp3", directory := "/z", filename := "song.mp3",
       filesize := 1000, fs_deleted := false, needs_verification := false },
     { id := 3, location := "/y/song.mp3", directory := "/y", filename := "song.mp3",
       filesize := 1000, fs_deleted := true, needs_verification := true }]
    [plainRow 1 1 false, plainRow 2 2 false, plainRow 3 3 false]

/-- The state `dao1` differs from `dao` at most in the two verification flags
of location rows: same rows in the same places with every other column as
before, and the same `library`, cue store, heap and cache. -/
@[reducible] def TrackDAO.onlyFlagsChanged (dao dao1 : TrackDAO) : Prop :=
  dao1.m_database.track_locations.map TrackLocation.withoutFlags =
    dao.m_database.track_locations.map TrackLocation.withoutFlags ∧
  dao1.m_database.library = dao.m_database.library ∧
  dao1.m_cueDao = dao.m_cueDao ∧ dao1.heap = dao.heap ∧ dao1.m_tracks = dao.m_tracks

/-- A second copy of the file of P5, deleted on disk like location A. -/
def locationC : TrackLocation :=
  { id := 3, location := "c.mp3", directory := ".", filename := "song.mp3", filesize := 1000,
    fs_deleted := true, needs_verification := true }

/-- The store of P5 with the second deleted copy and track 3 at it. -/
def secondDeletedCopyDao : TrackDAO :=
  daoOf [locationA, locationB, locationC]
    [plainRow 1 1 false, plainRow 2 2 false, plainRow 3 3 false]

/-- The store of P5 after `getTrack 2` cached the object of the stray record 2
and `detectMovedFiles` deleted that record. -/
def staleCacheDao : TrackDAO :=
  ((movedFileDao.getTrack plainConv 2).2.detectMovedFiles).getD movedFileDao

/-! ## Auxiliary facts -/

theorem le_foldl_max (ids : List Int) (a : Int) :
    a ≤ ids.foldl max a ∧ ∀ x ∈ ids, x ≤ ids.foldl max a := by
  induction ids generalizing a with
  | nil => simp
  | cons y ys ih =>
    simp only [List.foldl_cons, List.mem_cons]
    obtain ⟨h1, h2⟩ := ih (max a y)
    refine ⟨le_trans (le_max_left _ _) h1, ?_⟩
    rintro x (rfl | hx)
    · exact le_trans (le_max_right _ _) h1
    · exact h2 x hx

theorem lastInsertId_pos (ids : List Int) : 0 < lastInsertId ids := by
  have := (le_foldl_max ids 0).1
  unfold lastInsertId
  omega

theorem lastInsertId_fresh (ids : List Int) : ∀ x ∈ ids, x < lastInsertId ids := by
  intro x hx
  have := (le_foldl_max ids 0).2 x hx
  unfold lastInsertId
  omega

theorem lastValue_mem {α : Type} (init : α) (rows : List α) :
    lastValue init rows = init ∨ lastValue init rows ∈ rows := by
  induction rows generalizing init with
  | nil => left; rfl
  | cons x xs ih =>
    right
    have : lastValue init (x :: xs) = lastValue x xs := rfl
    rw [this]
    rcases ih x with h | h
    · rw [h]; exact List.mem_cons_self _ _
    · exact List.mem_cons_of_mem _ h

theorem setMixxxDeleted_refs (library : List LibraryRow) (trackId : Int) (v : Bool)
    (locs : List TrackLocation)
    (h : ∀ t ∈ library, ∃ l ∈ locs, l.id = t.location) :
    ∀ t ∈ setMixxxDeleted library trackId v, ∃ l ∈ locs, l.id = t.location := by
  intro t ht
  unfold setMixxxDeleted at ht
  obtain ⟨r, hr, rfl⟩ := List.mem_map.1 ht
  obtain ⟨l, hl, hlr⟩ := h r hr
  refine ⟨l, hl, ?_⟩
  split <;> simpa using hlr

theorem insertTrackLocation_keeps (locs : List TrackLocation) (pTrack : TrackInfoObject) :
    ∀ l ∈ locs, l ∈ (insertTrackLocation locs pTrack).1 := by
  intro l hl
  unfold insertTrackLocation
  split
  · exact hl
  · exact List.mem_append_left _ hl

theorem insertTrackLocation_resolves (locs : List TrackLocation) (pTrack : TrackInfoObject)
    (h : (insertTrackLocation locs pTrack).2 ≥ 0) :
    ∃ l ∈ (insertTrackLocation locs pTrack).1,
      l.id = (insertTrackLocation locs pTrack).2 ∧ l.location = pTrack.location := by
  unfold insertTrackLocation at h ⊢
  split at h
  · rw [if_pos (by assumption)]
    simp only at h ⊢
    rcases lastValue_mem (-1 : Int)
        ((locs.filter (fun l => l.location = pTrack.location)).map (fun l => l.id)) with h1 | h1
    · rw [h1] at h; omega
    · obtain ⟨l, hl, hid⟩ := List.mem_map.1 h1
      obtain ⟨hl1, hl2⟩ := List.mem_filter.1 hl
      exact ⟨l, hl1, hid, by simpa using hl2⟩
  · rw [if_neg (by assumption)]
    exact ⟨_, List.mem_append_right _ (List.mem_singleton_self _), rfl, rfl⟩

theorem insertTrackLocation_idsUnique (locs : List TrackLocation) (pTrack : TrackInfoObject)
    (h : (locs.map (fun l => l.id)).Nodup) :
    ((insertTrackLocation locs pTrack).1.map (fun l => l.id)).Nodup := by
  unfold insertTrackLocation
  split
  · exact h
  · simp only [List.map_append, List.map_cons, List.map_nil]
    refine List.Nodup.append h (List.nodup_singleton _) ?_
    intro x hx hx2
    have h1 := lastInsertId_fresh _ x hx
    have h2 : x = lastInsertId (locs.map (fun l => l.id)) := by
      simpa [newTrackLocation] using hx2
    omega

theorem addTrack_inv (dao : TrackDAO) (pTrack : TrackInfoObject) (ok : Bool)
    (r : TrackDAO × TrackInfoObject) (h : dao.addTrack pTrack ok = some r)
    (hu : dao.m_database.locationIdsUnique) (hr : dao.m_database.refsValid) :
    r.1.m_database.locationIdsUnique ∧ r.1.m_database.refsValid := by
  unfold TrackDAO.addTrack at h
  simp only at h
  split_ifs at h with h1 h2 h3
  · obtain rfl := Option.some.inj h
    refine ⟨insertTrackLocation_idsUnique _ _ hu, ?_⟩
    apply setMixxxDeleted_refs
    intro t ht
    rcases List.mem_append.1 ht with ht | ht
    · obtain ⟨l, hl, hlt⟩ := hr t ht
      exact ⟨l, insertTrackLocation_keeps _ _ l hl, hlt⟩
    · obtain ⟨l, hl, hid, -⟩ := insertTrackLocation_resolves _ _ h1
      refine ⟨l, hl, ?_⟩
      rw [List.mem_singleton.1 ht, hid]
      rfl
  · obtain rfl := Option.some.inj h
    exact ⟨hu, hr⟩

theorem updateTrack_inv (dao : TrackDAO) (pTrack : TrackInfoObject) (ok : Bool)
    (r : TrackDAO × TrackInfoObject) (h : dao.updateTrack pTrack ok = some r)
    (hu : dao.m_database.locationIdsUnique) (hr : dao.m_database.refsValid) :
    r.1.m_database.locationIdsUnique ∧ r.1.m_database.refsValid := by
  unfold TrackDAO.updateTrack at h
  simp only at h
  split_ifs at h with h1 h2
  · obtain rfl := Option.some.inj h
    refine ⟨hu, ?_⟩
    intro t ht
    obtain ⟨t0, ht0, rfl⟩ := List.mem_map.1 ht
    obtain ⟨l, hl, hlt⟩ := hr t0 ht0
    refine ⟨l, hl, ?_⟩
    split
    · simpa [updateRow] using hlt
    · exact hlt
  · obtain rfl := Option.some.inj h
    exact ⟨hu, hr⟩

theorem removeTrack_inv (dao : TrackDAO) (id : Int) (r : TrackDAO)
    (h : dao.removeTrack id = some r)
    (hu : dao.m_database.locationIdsUnique) (hr : dao.m_database.refsValid) :
    r.m_database.locationIdsUnique ∧ r.m_database.refsValid := by
  unfold TrackDAO.removeTrack at h
  split_ifs at h with h1
  obtain rfl := Option.some.inj h
  exact ⟨hu, setMixxxDeleted_refs _ _ _ _ hr⟩

/-- What one pass of the loop body of `detectMovedFiles` does: nothing, or the
repair towards one of the candidates. -/
theorem detectMovedStep_cases (db db1 : Database) (old : TrackLocation)
    (h : detectMovedStep db old = some db1) :
    db1 = db ∨ ∃ b ∈ moveCandidates db old, 0 ≤ b.id ∧ db1 = repairMove db old.id b.id := by
  unfold detectMovedStep at h
  simp only at h
  split_ifs at h with h1 h2
  · right
    obtain rfl := Option.some.inj h
    rcases lastValue_mem (-1 : Int) ((moveCandidates db old).map (fun l => l.id)) with h3 | h3
    · rw [h3] at h2
      exact absurd h2 (by decide)
    · obtain ⟨b, hb, hid⟩ := List.mem_map.1 h3
      refine ⟨b, hb, ?_, ?_⟩
      · rw [hid]; exact h2
      · rw [hid]
  · exact Or.inl (Option.some.inj h).symm

theorem mem_moveCandidates (db : Database) (old b : TrackLocation) :
    b ∈ moveCandidates db old ↔
      b ∈ db.track_locations ∧ b.fs_deleted = false ∧ b.filename = old.filename ∧
        b.filesize = toInt old.filesize := by
  unfold moveCandidates
  simp [List.mem_filter]

theorem repairMove_refs (db : Database) (o n : Int) (hr : db.refsValid)
    (hn : ∃ b ∈ db.track_locations, b.id = n) (hne : n ≠ o) :
    (repairMove db o n).refsValid := by
  intro t ht
  obtain ⟨t0, ht0, rfl⟩ := List.mem_map.1 ht
  obtain ⟨ht0, -⟩ := List.mem_filter.1 ht0
  split
  · obtain ⟨b, hb, hbn⟩ := hn
    exact ⟨b, List.mem_filter.2 ⟨hb, by simpa [hbn] using hne⟩, hbn⟩
  · rename_i hto
    obtain ⟨l, hl, hlt⟩ := hr t0 ht0
    exact ⟨l, List.mem_filter.2 ⟨hl, by simpa [hlt] using hto⟩, hlt⟩

theorem detectMovedStep_sublist (db db1 : Database) (old : TrackLocation)
    (h : detectMovedStep db old = some db1) :
    db1.track_locations.Sublist db.track_locations := by
  rcases detectMovedStep_cases db db1 old h with rfl | ⟨b, -, -, rfl⟩
  · exact List.Sublist.refl _
  · exact List.filter_sublist _

theorem detectMovedLoop_refs (olds : List TrackLocation) (db db1 : Database)
    (hold : ∀ old ∈ olds, ∀ l ∈ db.track_locations, l.id = old.id → l.fs_deleted = true)
    (hr : db.refsValid) (h : detectMovedLoop olds db = some db1) :
    db1.refsValid ∧ db1.track_locations.Sublist db.track_locations := by
  induction olds generalizing db with
  | nil =>
    obtain rfl := Option.some.inj h
    exact ⟨hr, List.Sublist.refl _⟩
  | cons old rest ih =>
    unfold detectMovedLoop at h
    match hs : detectMovedStep db old with
    | none => rw [hs] at h; exact absurd h (by simp)
    | some db2 =>
      rw [hs] at h
      simp only at h
      have hsub := detectMovedStep_sublist db db2 old hs
      have hr2 : db2.refsValid := by
        rcases detectMovedStep_cases db db2 old hs with rfl | ⟨b, hbm, -, rfl⟩
        · exact hr
        · obtain ⟨hb1, hb2, -⟩ := (mem_moveCandidates db old b).1 hbm
          refine repairMove_refs db old.id b.id hr ⟨b, hb1, rfl⟩ ?_
          intro hbo
          have := hold old (List.mem_cons_self _ _) b hb1 hbo
          rw [hb2] at this
          exact absurd this (by decide)
      obtain ⟨h1, h2⟩ := ih db2
        (fun o ho l hl => hold o (List.mem_cons_of_mem _ ho) l (hsub.subset hl)) hr2 h
      exact ⟨h1, h2.trans hsub⟩

theorem eq_of_mem_of_nodup_map {α β : Type} (f : α → β) (l : List α) (h : (l.map f).Nodup)
    (a b : α) (ha : a ∈ l) (hb : b ∈ l) (hab : f a = f b) : a = b :=
  List.inj_on_of_nodup_map h ha hb hab

theorem detectMovedFiles_inv (dao r : TrackDAO) (h : dao.detectMovedFiles = some r)
    (hu : dao.m_database.locationIdsUnique) (hr : dao.m_database.refsValid) :
    r.m_database.locationIdsUnique ∧ r.m_database.refsValid := by
  unfold TrackDAO.detectMovedFiles at h
  match hl : detectMovedLoop
      (dao.m_database.track_locations.filter (fun l => l.fs_deleted = true)) dao.m_database with
  | none => rw [hl] at h; exact absurd h (by simp)
  | some db1 =>
    rw [hl] at h
    obtain rfl := Option.some.inj h
    have := detectMovedLoop_refs _ _ _ (by
      intro old ho l hl2 hid
      obtain ⟨ho1, ho2⟩ := List.mem_filter.1 ho
      have : l = old := eq_of_mem_of_nodup_map _ _ hu l old hl2 ho1 hid
      rw [this]; simpa using ho2) hr hl
    exact ⟨(this.2.map _).nodup hu, this.1⟩

theorem applyCall_inv (dao : TrackDAO) (c : Call)
    (hu : dao.m_database.locationIdsUnique) (hr : dao.m_database.refsValid) :
    (dao.applyCall c).m_database.locationIdsUnique ∧ (dao.applyCall c).m_database.refsValid := by
  cases c with
  | addTrack pTrack ok =>
    simp only [TrackDAO.applyCall]
    cases h : dao.addTrack pTrack ok with
    | none => exact ⟨hu, hr⟩
    | some r => exact addTrack_inv dao pTrack ok r h hu hr
  | updateTrack pTrack ok =>
    simp only [TrackDAO.applyCall]
    cases h : dao.updateTrack pTrack ok with
    | none => exact ⟨hu, hr⟩
    | some r => exact updateTrack_inv dao pTrack ok r h hu hr
  | removeTrack id =>
    simp only [TrackDAO.applyCall]
    cases h : dao.removeTrack id with
    | none => exact ⟨hu, hr⟩
    | some r => exact removeTrack_inv dao id r h hu hr
  | detectMovedFiles =>
    simp only [TrackDAO.applyCall]
    cases h : dao.detectMovedFiles with
    | none => exact ⟨hu, hr⟩
    | some r => exact detectMovedFiles_inv dao r h hu hr

theorem run_inv (calls : List Call) (dao : TrackDAO)
    (hu : dao.m_database.locationIdsUnique) (hr : dao.m_database.refsValid) :
    (dao.run calls).m_database.locationIdsUnique ∧ (dao.run calls).m_database.refsValid := by
  induction calls generalizing dao with
  | nil => exact ⟨hu, hr⟩
  | cons c cs ih =>
    obtain ⟨h1, h2⟩ := applyCall_inv dao c hu hr
    exact ih (dao.applyCall c) h1 h2

/-! ## The loop of `detectMovedFiles` -/

theorem detectMovedLoop_append (xs ys : List TrackLocation) (db : Database) :
    detectMovedLoop (xs ++ ys) db = (detectMovedLoop xs db).bind (detectMovedLoop ys) := by
  induction xs generalizing db with
  | nil => rfl
  | cons x xs ih =>
    simp only [List.cons_append, detectMovedLoop]
    cases detectMovedStep db x with
    | none => rfl
    | some db1 => exact ih db1

theorem detectMovedStep_of_single (db : Database) (old b : TrackLocation)
    (hq : moveCandidates db old = [b]) (hb : 0 ≤ b.id) :
    detectMovedStep db old = some (repairMove db old.id b.id) := by
  unfold detectMovedStep
  have hsize : QSqlQuery.size [b] ≤ 1 := by
    unfold QSqlQuery.size; decide
  simp only [hq, hsize, if_true, List.map_cons, List.map_nil]
  have : lastValue (-1) [b.id] = b.id := rfl
  rw [this, if_pos hb]

/-- The assertion on `size()` holds whatever the result: the loop body ends. -/
theorem detectMovedStep_isSome (db : Database) (old : TrackLocation) :
    ∃ db1, detectMovedStep db old = some db1 := by
  unfold detectMovedStep
  have hsize : QSqlQuery.size (moveCandidates db old) ≤ 1 := by
    unfold QSqlQuery.size; decide
  simp only [hsize, if_true]
  split
  · exact ⟨_, rfl⟩
  · exact ⟨_, rfl⟩

theorem moveCandidates_sublist (db orig : Database) (old : TrackLocation)
    (h : db.track_locations.Sublist orig.track_locations) :
    (moveCandidates db old).Sublist (moveCandidates orig old) :=
  List.Sublist.filter _ h

theorem repairMove_ids_sublist (db : Database) (o n : Int) :
    ((repairMove db o n).library.map (fun r => r.id)).Sublist
      (db.library.map (fun r => r.id)) := by
  have h : (repairMove db o n).library.map (fun r => r.id) =
      (db.library.filter (fun t => t.location ≠ n)).map (fun r => r.id) := by
    unfold repairMove
    simp only [List.map_map]
    apply List.map_congr_left
    intro t _
    simp only [Function.comp]
    split <;> rfl
  rw [h]
  exact (List.filter_sublist _).map _

theorem repairMove_keeps (db : Database) (o n : Int) (t : LibraryRow) (ht : t ∈ db.library)
    (hn : t.location ≠ n) (ho : t.location ≠ o) : t ∈ (repairMove db o n).library := by
  unfold repairMove
  refine List.mem_map.2 ⟨t, List.mem_filter.2 ⟨ht, by simpa using hn⟩, ?_⟩
  rw [if_neg ho]

theorem repairMove_repoints (db : Database) (o n : Int) (t : LibraryRow) (ht : t ∈ db.library)
    (ho : t.location = o) (hne : o ≠ n) :
    { t with location := n } ∈ (repairMove db o n).library := by
  unfold repairMove
  refine List.mem_map.2 ⟨t, List.mem_filter.2 ⟨ht, by simpa [ho] using hne⟩, ?_⟩
  rw [if_pos ho]

theorem repairMove_origin (db : Database) (o n : Int) (t1 : LibraryRow)
    (h : t1 ∈ (repairMove db o n).library) :
    ∃ t ∈ db.library, t.location ≠ n ∧ t1.id = t.id := by
  unfold repairMove at h
  obtain ⟨t, ht, rfl⟩ := List.mem_map.1 h
  obtain ⟨ht1, ht2⟩ := List.mem_filter.1 ht
  refine ⟨t, ht1, by simpa using ht2, ?_⟩
  split <;> rfl

/-- Frame of the loop: run over rows `olds` of the original table `orig` that
are deleted on disk, it ends, keeps every location row that is present on
disk, creates no track id, and leaves alone every track record that references
neither a visited row nor one of their candidates. -/
theorem detectMovedLoop_frame (orig : Database) (olds : List TrackLocation) (db : Database)
    (hu : orig.locationIdsUnique)
    (holds : ∀ old ∈ olds, old ∈ orig.track_locations ∧ old.fs_deleted = true)
    (hsub : db.track_locations.Sublist orig.track_locations)
    (hkeep : ∀ l ∈ orig.track_locations, l.fs_deleted = false → l ∈ db.track_locations) :
    ∃ db1, detectMovedLoop olds db = some db1 ∧
      db1.track_locations.Sublist db.track_locations ∧
      (∀ l ∈ orig.track_locations, l.fs_deleted = false → l ∈ db1.track_locations) ∧
      (db1.library.map (fun r => r.id)).Sublist (db.library.map (fun r => r.id)) ∧
      (∀ t ∈ db.library, (∀ old ∈ olds, t.location ≠ old.id) →
        (∀ old ∈ olds, ∀ b ∈ moveCandidates orig old, t.location ≠ b.id) →
        t ∈ db1.library) := by
  induction olds generalizing db with
  | nil =>
    exact ⟨db, rfl, List.Sublist.refl _, hkeep, List.Sublist.refl _, fun t ht _ _ => ht⟩
  | cons old rest ih =>
    obtain ⟨hold1, hold2⟩ := holds old (List.mem_cons_self _ _)
    have hcs := moveCandidates_sublist db orig old hsub
    obtain ⟨db2, hstep⟩ := detectMovedStep_isSome db old
    have hcases := detectMovedStep_cases db db2 old hstep
    have hsub2 : db2.track_locations.Sublist db.track_locations :=
      detectMovedStep_sublist db db2 old hstep
    have hkeep2 : ∀ l ∈ orig.track_locations, l.fs_deleted = false →
        l ∈ db2.track_locations := by
      intro l hl hld
      rcases hcases with rfl | ⟨b, -, -, rfl⟩
      · exact hkeep l hl hld
      · refine List.mem_filter.2 ⟨hkeep l hl hld, ?_⟩
        have : l.id ≠ old.id := by
          intro hid
          have := eq_of_mem_of_nodup_map _ _ hu l old hl hold1 hid
          rw [this, hold2] at hld
          exact absurd hld (by decide)
        simpa using this
    have hids2 : (db2.library.map (fun r => r.id)).Sublist (db.library.map (fun r => r.id)) := by
      rcases hcases with rfl | ⟨b, -, -, rfl⟩
      · exact List.Sublist.refl _
      · exact repairMove_ids_sublist db old.id b.id
    obtain ⟨db1, hloop, h1, h2, h3, h4⟩ := ih db2
      (fun o ho => holds o (List.mem_cons_of_mem _ ho)) (hsub2.trans hsub) hkeep2
    refine ⟨db1, ?_, h1.trans hsub2, h2, h3.trans hids2, ?_⟩
    · simp only [detectMovedLoop, hstep]
      exact hloop
    · intro t ht hto htb
      apply h4 t
      · rcases hcases with rfl | ⟨b, hb, -, rfl⟩
        · exact ht
        · have hbm : b ∈ moveCandidates orig old := hcs.subset hb
          exact repairMove_keeps db old.id b.id t ht
            (htb old (List.mem_cons_self _ _) b hbm) (hto old (List.mem_cons_self _ _))
      · exact fun o ho => hto o (List.mem_cons_of_mem _ ho)
      · exact fun o ho => htb o (List.mem_cons_of_mem _ ho)

/-- A pass of the loop body for a row deleted on disk does not change the
candidates of any row. -/
theorem detectMovedStep_candidates (orig db db1 : Database) (old : TrackLocation)
    (hu : orig.locationIdsUnique) (hold : old ∈ orig.track_locations)
    (hdel : old.fs_deleted = true)
    (hsub : db.track_locations.Sublist orig.track_locations)
    (h : detectMovedStep db old = some db1) (A : TrackLocation) :
    moveCandidates db1 A = moveCandidates db A := by
  rcases detectMovedStep_cases db db1 old h with rfl | ⟨b, -, -, rfl⟩
  · rfl
  · unfold moveCandidates repairMove
    simp only [List.filter_filter]
    apply List.filter_congr
    intro l hl
    have hne : l.fs_deleted = false → l.id ≠ old.id := by
      intro hld hid
      have := eq_of_mem_of_nodup_map _ _ hu l old (hsub.subset hl) hold hid
      rw [this, hdel] at hld
      exact absurd hld (by decide)
    by_cases hld : l.fs_deleted = false
    · simp [hld, hne hld]
    · simp [hld]

/-! ## The cache -/

theorem cacheLookup_cacheInsert (m : List (Int × Nat)) (id : Int) (p : Nat) :
    cacheLookup (cacheInsert m id p) id = some p := by
  simp [cacheLookup, cacheInsert]

theorem getTrackFromDB_append (cv : FloatConv) (dao : TrackDAO)
    (rows : List (LibraryRow × TrackLocation)) (row : LibraryRow × TrackLocation) :
    dao.getTrackFromDB cv (rows ++ [row]) =
      getTrackFromDBStep cv (dao.getTrackFromDB cv rows) row := by
  simp [TrackDAO.getTrackFromDB, List.foldl_append]

theorem getTrackFromDB_cached (cv : FloatConv) (dao : TrackDAO)
    (rows : List (LibraryRow × TrackLocation)) (id : Int) (hne : rows ≠ [])
    (hid : ∀ row ∈ rows, row.1.id = id) :
    ∃ p, (dao.getTrackFromDB cv rows).1 = some p ∧
      cacheLookup (dao.getTrackFromDB cv rows).2.m_tracks id = some p := by
  rcases List.eq_nil_or_concat rows with h | ⟨init, last, rfl⟩
  · exact absurd h hne
  · rw [List.concat_eq_append] at *
    rw [getTrackFromDB_append]
    refine ⟨_, rfl, ?_⟩
    have : last.1.id = id := hid last (List.mem_append_right _ (List.mem_singleton_self _))
    simp only [getTrackFromDBStep]
    rw [this]
    exact cacheLookup_cacheInsert _ _ _

theorem selectTrack_id (db : Database) (id : Int) :
    ∀ row ∈ selectTrack db id, row.1.id = id := by
  intro row hrow
  unfold selectTrack at hrow
  obtain ⟨t, -, ht⟩ := List.mem_flatMap.1 hrow
  obtain ⟨l, hl, rfl⟩ := List.mem_map.1 ht
  have := (List.mem_filter.1 hl).2
  simp only [decide_eq_true_eq] at this
  exact this.2

theorem getTrackFromDBStep_inv (cv : FloatConv) (acc : Option Nat × TrackDAO)
    (row : LibraryRow × TrackLocation) (hu : acc.2.cacheUnique) (hk : acc.2.cacheKeyed) :
    (getTrackFromDBStep cv acc row).2.cacheUnique ∧
    (getTrackFromDBStep cv acc row).2.cacheKeyed := by
  constructor
  · show ((cacheInsert acc.2.m_tracks row.1.id acc.2.heap.length).map (fun e => e.1)).Nodup
    unfold cacheInsert
    rw [List.map_cons, List.nodup_cons]
    constructor
    · intro hmem
      obtain ⟨e, he, heq⟩ := List.mem_map.1 hmem
      have := (List.mem_filter.1 he).2
      simp only [decide_eq_true_eq] at this
      exact this heq
    · exact ((List.filter_sublist _).map _).nodup hu
  · intro e he
    show ((acc.2.heap ++ [trackOfRow cv acc.2.m_cueDao row])[e.2]?).map (fun o => o.id) = some e.1
    have he2 : e ∈ cacheInsert acc.2.m_tracks row.1.id acc.2.heap.length := he
    unfold cacheInsert at he2
    rcases List.mem_cons.1 he2 with rfl | he3
    · simp [trackOfRow]
    · have hold := hk e (List.mem_filter.1 he3).1
      cases hget : acc.2.heap[e.2]? with
      | none => rw [hget] at hold; exact absurd hold (by simp)
      | some o =>
        have hlt : e.2 < acc.2.heap.length := (List.getElem?_eq_some_iff.1 hget).1
        rw [List.getElem?_append_left hlt, ← hold, hget]

theorem getTrackFromDB_inv (cv : FloatConv) (dao : TrackDAO)
    (rows : List (LibraryRow × TrackLocation)) (hu : dao.cacheUnique) (hk : dao.cacheKeyed) :
    (dao.getTrackFromDB cv rows).2.cacheUnique ∧ (dao.getTrackFromDB cv rows).2.cacheKeyed := by
  induction rows using List.reverseRecOn with
  | nil => exact ⟨hu, hk⟩
  | append_singleton init last ih =>
    rw [getTrackFromDB_append]
    exact getTrackFromDBStep_inv cv _ last ih.1 ih.2

theorem getTrack_inv (cv : FloatConv) (dao : TrackDAO) (id : Int)
    (hu : dao.cacheUnique) (hk : dao.cacheKeyed) :
    (dao.getTrack cv id).2.cacheUnique ∧ (dao.getTrack cv id).2.cacheKeyed := by
  unfold TrackDAO.getTrack
  split
  · exact ⟨hu, hk⟩
  · exact getTrackFromDB_inv cv dao _ hu hk

theorem getTracks_inv (cv : FloatConv) (ids : List Int) (dao : TrackDAO)
    (hu : dao.cacheUnique) (hk : dao.cacheKeyed) :
    (dao.getTracks cv ids).cacheUnique ∧ (dao.getTracks cv ids).cacheKeyed := by
  induction ids generalizing dao with
  | nil => exact ⟨hu, hk⟩
  | cons id rest ih =>
    obtain ⟨h1, h2⟩ := getTrack_inv cv dao id hu hk
    exact ih _ h1 h2

/-! ## `addTrack` -/

theorem lastValue_mem_of_ne_nil {α : Type} (init : α) (rows : List α) (h : rows ≠ []) :
    lastValue init rows ∈ rows := by
  cases rows with
  | nil => exact absurd rfl h
  | cons x xs =>
    have : lastValue init (x :: xs) = lastValue x xs := rfl
    rw [this]
    rcases lastValue_mem x xs with h1 | h1
    · rw [h1]; exact List.mem_cons_self _ _
    · exact List.mem_cons_of_mem _ h1

theorem filter_eq_singleton_of_nodup_map {α β : Type} [DecidableEq β] (f : α → β)
    (l : List α) (h : (l.map f).Nodup) (a : α) (ha : a ∈ l) :
    l.filter (fun x => decide (f x = f a)) = [a] := by
  induction l with
  | nil => exact absurd ha (List.not_mem_nil _)
  | cons x xs ih =>
    rw [List.map_cons, List.nodup_cons] at h
    by_cases hxa : x = a
    · subst hxa
      have hnil : xs.filter (fun y => decide (f y = f x)) = [] := by
        rw [List.filter_eq_nil_iff]
        intro y hy hfy
        simp only [decide_eq_true_eq] at hfy
        exact h.1 (hfy ▸ List.mem_map.2 ⟨y, hy, rfl⟩)
      simp [List.filter_cons, hnil]
    · have ha2 : a ∈ xs := by
        rcases List.mem_cons.1 ha with h1 | h1
        · exact absurd h1.symm hxa
        · exact h1
      have hne : f x ≠ f a := fun hf => h.1 (hf ▸ List.mem_map.2 ⟨a, ha2, rfl⟩)
      simp [List.filter_cons, hne, ih h.2 ha2]

/-- The two outcomes of the first statements of `addTrack`: the location is
known and its row is looked up, or a row is appended under a new id. -/
theorem insertTrackLocation_cases (locs : List TrackLocation) (pTrack : TrackInfoObject) :
    ((∃ l ∈ locs, l.location = pTrack.location) ∧
      (insertTrackLocation locs pTrack).1 = locs) ∨
    ((∀ l ∈ locs, l.location ≠ pTrack.location) ∧
      insertTrackLocation locs pTrack =
        (locs ++ [newTrackLocation (lastInsertId (locs.map (fun l => l.id))) pTrack],
         lastInsertId (locs.map (fun l => l.id)))) := by
  unfold insertTrackLocation
  split
  · rename_i h
    left
    obtain ⟨l, hl, hlp⟩ := List.any_eq_true.1 h
    exact ⟨⟨l, hl, by simpa using hlp⟩, rfl⟩
  · rename_i h
    right
    refine ⟨?_, rfl⟩
    intro l hl hlp
    exact h (List.any_eq_true.2 ⟨l, hl, by simpa using hlp⟩)

theorem insertTrackLocation_nonneg (locs : List TrackLocation) (pTrack : TrackInfoObject)
    (hn : ∀ l ∈ locs, 0 ≤ l.id) : (insertTrackLocation locs pTrack).2 ≥ 0 := by
  unfold insertTrackLocation
  split
  · rename_i h
    obtain ⟨l, hl, hlp⟩ := List.any_eq_true.1 h
    have hne : (locs.filter (fun l => decide (l.location = pTrack.location))).map
        (fun l => l.id) ≠ [] := by
      intro hnil
      have : l.id ∈ (locs.filter (fun l => decide (l.location = pTrack.location))).map
          (fun l => l.id) := List.mem_map.2 ⟨l, List.mem_filter.2 ⟨hl, hlp⟩, rfl⟩
      rw [hnil] at this
      exact absurd this (List.not_mem_nil _)
    obtain ⟨l2, hl2, hid⟩ := List.mem_map.1 (lastValue_mem_of_ne_nil (-1 : Int) _ hne)
    have := hn l2 (List.mem_filter.1 hl2).1
    simp only [ge_iff_le]
    rw [← hid]
    exact this
  · exact le_of_lt (lastInsertId_pos _)

theorem setMixxxDeleted_fresh (library : List LibraryRow) (row : LibraryRow) (trackId : Int)
    (hfresh : ∀ r ∈ library, r.id ≠ trackId) (hrow : row.mixxx_deleted = false) :
    setMixxxDeleted (library ++ [row]) trackId false = library ++ [row] := by
  unfold setMixxxDeleted
  rw [List.map_append]
  congr 1
  · conv_rhs => rw [← List.map_id library]
    apply List.map_congr_left
    intro r hr
    rw [if_neg (hfresh r hr)]
    rfl
  · simp only [List.map_cons, List.map_nil]
    split
    · cases row
      simp only at hrow
      subst hrow
      rfl
    · rfl

/-- A successful `addTrack`: the state and the object it returns. -/
theorem addTrack_ok_eq (dao : TrackDAO) (pTrack : TrackInfoObject)
    (h : (insertTrackLocation dao.m_database.track_locations pTrack).2 ≥ 0) :
    dao.addTrack pTrack true =
      some ({ dao with
                m_database :=
                  { track_locations := (insertTrackLocation dao.m_database.track_locations pTrack).1,
                    library := dao.m_database.library ++
                      [newLibraryRow (lastInsertId (dao.m_database.library.map (fun r => r.id)))
                        (insertTrackLocation dao.m_database.track_locations pTrack).2 pTrack] },
                m_cueDao := CueDAO.saveTrackCues dao.m_cueDao
                  (lastInsertId (dao.m_database.library.map (fun r => r.id))) pTrack },
            { pTrack with id := lastInsertId (dao.m_database.library.map (fun r => r.id)),
                          dirty := false }) := by
  unfold TrackDAO.addTrack
  simp only [h, if_true]
  rw [if_pos (le_of_lt (lastInsertId_pos _))]
  rw [setMixxxDeleted_fresh _ _ _ (fun r hr => ne_of_lt
    (lastInsertId_fresh _ r.id (List.mem_map.2 ⟨r, hr, rfl⟩))) rfl]

/-- C1: referential integrity is an invariant.  From any store whose location
ids are a key and in which every track record references an existing location
row, after any finite sequence of `addTrack` (failing library inserts
included), `updateTrack`, `removeTrack` and `detectMovedFiles` calls, every
track record with `mixxx_deleted` clear references an existing location row. -/
theorem referential_integrity_invariant (dao : TrackDAO) (calls : List Call)
    (hu : dao.m_database.locationIdsUnique) (hr : dao.m_database.refsValid) :
    ∀ t ∈ (dao.run calls).m_database.library, t.mixxx_deleted = false →
      ∃ l ∈ (dao.run calls).m_database.track_locations, l.id = t.location :=
  fun t ht _ => (run_inv calls dao hu hr).2 t ht

/-- The invariant at the store of P5 under a sequence with every kind of call. -/
theorem referential_integrity_invariant_witness :
    movedFileDao.m_database.locationIdsUnique ∧ movedFileDao.m_database.refsValid ∧
    ∀ t ∈ (movedFileDao.run sampleCalls).m_database.library, t.mixxx_deleted = false →
      ∃ l ∈ (movedFileDao.run sampleCalls).m_database.track_locations, l.id = t.location :=
  ⟨by decide, by decide,
   referential_integrity_invariant movedFileDao sampleCalls (by decide) (by decide)⟩

/-- Move detection preserves identity where `A` is the only deleted copy.  In a
store whose location ids and track ids are keys, let `A` be a location deleted
on disk and referenced by the track record `T`, let `B` (id not negative) be
the only location present on disk with the filename and size of `A`,
referenced by the stray record `S`, and let `A` be the only location deleted
on disk with that filename and size.  Then `detectMovedFiles` commits, `T` is
kept with its id and every column but the location reference, which is now
`B`; it is the only record with that id; no record has the id of `S`; no
location row has the id of `A`; `B` is kept. -/
theorem move_detection_preserves_identity (dao : TrackDAO) (A B : TrackLocation)
    (T S : LibraryRow)
    (hu : dao.m_database.locationIdsUnique) (htu : dao.m_database.trackIdsUnique)
    (hA : A ∈ dao.m_database.track_locations) (hAd : A.fs_deleted = true)
    (hB : moveCandidates dao.m_database A = [B]) (hB0 : 0 ≤ B.id)
    (hT : T ∈ dao.m_database.library) (hTA : T.location = A.id)
    (hS : S ∈ dao.m_database.library) (hSB : S.location = B.id)
    (hOnly : ∀ l ∈ dao.m_database.track_locations, l.fs_deleted = true →
      l.filename = A.filename → toInt l.filesize = toInt A.filesize → l = A) :
    ∃ dao1, dao.detectMovedFiles = some dao1 ∧
      { T with location := B.id } ∈ dao1.m_database.library ∧
      (∀ t ∈ dao1.m_database.library, t.id = T.id → t = { T with location := B.id }) ∧
      (∀ t ∈ dao1.m_database.library, t.id ≠ S.id) ∧
      (∀ l ∈ dao1.m_database.track_locations, l.id ≠ A.id) ∧
      B ∈ dao1.m_database.track_locations := by
  -- facts about `B`
  have hBm : B ∈ moveCandidates dao.m_database A := by rw [hB]; exact List.mem_singleton_self _
  obtain ⟨hBin, hBd, hBf, hBs⟩ := (mem_moveCandidates _ _ _).1 hBm
  have hAB : A.id ≠ B.id := by
    intro h
    have := eq_of_mem_of_nodup_map _ _ hu A B hA hBin h
    rw [this, hBd] at hAd
    exact absurd hAd (by decide)
  -- a location deleted on disk other than `A` does not have `B` as a candidate
  have hcand : ∀ old ∈ dao.m_database.track_locations, old.fs_deleted = true → old ≠ A →
      ∀ b ∈ moveCandidates dao.m_database old, B.id ≠ b.id := by
    intro old ho hod hne b hb hid
    obtain ⟨hb1, -, hb3, hb4⟩ := (mem_moveCandidates _ _ _).1 hb
    have hbB : B = b := eq_of_mem_of_nodup_map _ _ hu B b hBin hb1 hid
    subst hbB
    exact hne (hOnly old ho hod (by rw [← hb3, hBf]) (by rw [← hb4, hBs]))
  have hdel : ∀ old ∈ dao.m_database.track_locations, old.fs_deleted = true →
      B.id ≠ old.id := by
    intro old ho hod hid
    have := eq_of_mem_of_nodup_map _ _ hu B old hBin ho hid
    rw [this, hod] at hBd
    exact absurd hBd (by decide)
  -- split the outer query at `A`
  have hAo : A ∈ dao.m_database.track_locations.filter (fun l => l.fs_deleted = true) :=
    List.mem_filter.2 ⟨hA, by simpa using hAd⟩
  obtain ⟨pre, post, hsplit⟩ := List.append_of_mem hAo
  have hnd : (pre ++ A :: post).Nodup := by
    rw [← hsplit]
    exact (List.Nodup.of_map _ hu).filter _
  have hnd2 := List.nodup_middle.1 hnd
  have hApre : A ∉ pre := fun h => (List.nodup_cons.1 hnd2).1 (List.mem_append_left _ h)
  have hApost : A ∉ post := fun h => (List.nodup_cons.1 hnd2).1 (List.mem_append_right _ h)
  have hin : ∀ old, old ∈ pre ∨ old ∈ post →
      old ∈ dao.m_database.track_locations ∧ old.fs_deleted = true := by
    intro old ho
    have : old ∈ dao.m_database.track_locations.filter (fun l => l.fs_deleted = true) := by
      rw [hsplit]
      rcases ho with ho | ho
      · exact List.mem_append_left _ ho
      · exact List.mem_append_right _ (List.mem_cons_of_mem _ ho)
    obtain ⟨h1, h2⟩ := List.mem_filter.1 this
    exact ⟨h1, by simpa using h2⟩
  -- the rows before `A`
  obtain ⟨db1, hloop1, hsub1, hkeep1, hids1, hframe1⟩ :=
    detectMovedLoop_frame dao.m_database pre dao.m_database hu
      (fun old ho => ⟨(hin old (Or.inl ho)).1, (hin old (Or.inl ho)).2⟩)
      (List.Sublist.refl _) (fun l hl _ => hl)
  have hT1 : T ∈ db1.library := by
    apply hframe1 T hT
    · intro old ho hid
      have := eq_of_mem_of_nodup_map _ _ hu A old hA (hin old (Or.inl ho)).1 (by rw [← hTA, hid])
      exact hApre (this ▸ ho)
    · intro old _ b hb hid
      obtain ⟨hb1, hb2, -⟩ := (mem_moveCandidates _ _ _).1 hb
      have := eq_of_mem_of_nodup_map _ _ hu A b hA hb1 (by rw [← hTA, hid])
      rw [this, hb2] at hAd
      exact absurd hAd (by decide)
  have hS1 : S ∈ db1.library := by
    apply hframe1 S hS
    · intro old ho
      rw [hSB]
      exact hdel old (hin old (Or.inl ho)).1 (hin old (Or.inl ho)).2
    · intro old ho b hb
      rw [hSB]
      exact hcand old (hin old (Or.inl ho)).1 (hin old (Or.inl ho)).2
        (fun h => hApre (h ▸ ho)) b hb
  have htu1 : (db1.library.map (fun r => r.id)).Nodup := hids1.nodup htu
  -- the row `A`
  have hq1 : moveCandidates db1 A = [B] := by
    have hs := moveCandidates_sublist db1 dao.m_database A hsub1
    rw [hB] at hs
    rcases List.sublist_singleton.1 hs with h | h
    · have : B ∈ moveCandidates db1 A :=
        (mem_moveCandidates _ _ _).2 ⟨hkeep1 B hBin hBd, hBd, hBf, hBs⟩
      rw [h] at this
      exact absurd this (List.not_mem_nil _)
    · exact h
  have hstepA := detectMovedStep_of_single db1 A B hq1 hB0
  have hT2 : { T with location := B.id } ∈ (repairMove db1 A.id B.id).library :=
    repairMove_repoints db1 A.id B.id T hT1 hTA hAB
  have hS2 : ∀ t ∈ (repairMove db1 A.id B.id).library, t.id ≠ S.id := by
    intro t ht hid
    obtain ⟨t0, ht0, hloc, hid0⟩ := repairMove_origin db1 A.id B.id t ht
    have := eq_of_mem_of_nodup_map _ _ htu1 t0 S ht0 hS1 (by rw [← hid0, hid])
    rw [this] at hloc
    exact hloc hSB
  have hA2 : ∀ l ∈ (repairMove db1 A.id B.id).track_locations, l.id ≠ A.id := by
    intro l hl
    have := (List.mem_filter.1 hl).2
    simpa using this
  have hsub2 : (repairMove db1 A.id B.id).track_locations.Sublist
      dao.m_database.track_locations := (List.filter_sublist _).trans hsub1
  have hkeep2 : ∀ l ∈ dao.m_database.track_locations, l.fs_deleted = false →
      l ∈ (repairMove db1 A.id B.id).track_locations := by
    intro l hl hld
    refine List.mem_filter.2 ⟨hkeep1 l hl hld, ?_⟩
    have : l.id ≠ A.id := by
      intro hid
      have := eq_of_mem_of_nodup_map _ _ hu l A hl hA hid
      rw [this, hAd] at hld
      exact absurd hld (by decide)
    simpa using this
  -- the rows after `A`
  obtain ⟨db3, hloop3, hsub3, hkeep3, hids3, hframe3⟩ :=
    detectMovedLoop_frame dao.m_database post (repairMove db1 A.id B.id) hu
      (fun old ho => ⟨(hin old (Or.inr ho)).1, (hin old (Or.inr ho)).2⟩)
      hsub2 hkeep2
  have hT3 : { T with location := B.id } ∈ db3.library := by
    apply hframe3 _ hT2
    · intro old ho
      exact hdel old (hin old (Or.inr ho)).1 (hin old (Or.inr ho)).2
    · intro old ho b hb
      exact hcand old (hin old (Or.inr ho)).1 (hin old (Or.inr ho)).2
        (fun h => hApost (h ▸ ho)) b hb
  have hids2 := repairMove_ids_sublist db1 A.id B.id
  have htu3 : (db3.library.map (fun r => r.id)).Nodup := (hids3.trans hids2).nodup htu1
  have hrun : dao.detectMovedFiles = some { dao with m_database := db3 } := by
    unfold TrackDAO.detectMovedFiles
    rw [hsplit, detectMovedLoop_append, hloop1]
    simp only [Option.some_bind, detectMovedLoop, hstepA, hloop3]
  refine ⟨_, hrun, hT3, ?_, ?_, ?_, hkeep3 B hBin hBd⟩
  · intro t ht hid
    exact eq_of_mem_of_nodup_map _ _ htu3 t _ ht hT3 hid
  · intro t ht hid
    have hmem : t.id ∈ (repairMove db1 A.id B.id).library.map (fun r => r.id) :=
      hids3.subset (List.mem_map.2 ⟨t, ht, rfl⟩)
    obtain ⟨t2, ht2, hid2⟩ := List.mem_map.1 hmem
    exact hS2 t2 ht2 (hid2.trans hid)
  · intro l hl
    exact hA2 l (hsub3.subset hl)

/-- The instance of P5: locations A and B, track 1 at A, the stray track 2 at B. -/
theorem move_detection_preserves_identity_witness :
    moveCandidates movedFileDao.m_database locationA = [locationB] ∧
    ∃ dao1, movedFileDao.detectMovedFiles = some dao1 ∧
      { plainRow 1 1 false with location := locationB.id } ∈ dao1.m_database.library ∧
      (∀ t ∈ dao1.m_database.library, t.id = (plainRow 1 1 false).id →
        t = { plainRow 1 1 false with location := locationB.id }) ∧
      (∀ t ∈ dao1.m_database.library, t.id ≠ (plainRow 2 2 false).id) ∧
      (∀ l ∈ dao1.m_database.track_locations, l.id ≠ locationA.id) ∧
      locationB ∈ dao1.m_database.track_locations :=
  ⟨by decide,
   move_detection_preserves_identity movedFileDao locationA locationB
     (plainRow 1 1 false) (plainRow 2 2 false)
     (by decide) (by decide) (by decide) (by decide) (by decide) (by decide)
     (by decide) (by decide) (by decide) (by decide) (by decide)⟩

/-- C2 at the failing input: the store of P5 (location A deleted on disk with
track 1, its single candidate B with the stray track 2) with a second deleted
copy of the same file, location 3 with track 3.  Ids and paths are unique and
every record references an existing location row.  `detectMovedFiles` commits
and leaves the one record 3, at B: track 1 is gone. -/
theorem move_detection_loses_original_record :
    secondDeletedCopyDao.m_database.locationIdsUnique ∧
    secondDeletedCopyDao.m_database.trackIdsUnique ∧
    secondDeletedCopyDao.m_database.pathsUnique ∧
    secondDeletedCopyDao.m_database.refsValid ∧
    locationA ∈ secondDeletedCopyDao.m_database.track_locations ∧
    locationA.fs_deleted = true ∧
    moveCandidates secondDeletedCopyDao.m_database locationA = [locationB] ∧
    plainRow 1 1 false ∈ secondDeletedCopyDao.m_database.library ∧
    (plainRow 1 1 false).location = locationA.id ∧
    plainRow 2 2 false ∈ secondDeletedCopyDao.m_database.library ∧
    (plainRow 2 2 false).location = locationB.id ∧
    secondDeletedCopyDao.detectMovedFiles.map (fun d => d.m_database.library) =
      some [{ plainRow 3 3 false with location := 2 }] ∧
    secondDeletedCopyDao.detectMovedFiles.map
        (fun d => d.m_database.track_locations) = some [locationB] := by
  decide

/-- C3 at the failing input: with locations `/music/a.mp3` (id 1) and
`/music/b.mp3` (id 2) and the single track record 1 at location 1, no record
references a location with path `/music/b.mp3`, yet `getTrackId` of that path
returns 1 and `trackExistsInDatabase` is true, while `getTrackLocation 1` is
`/music/a.mp3`. -/
theorem getTrackId_returns_unrelated_track :
    (∀ t ∈ twoLocationsDao.m_database.library,
      ∀ l ∈ twoLocationsDao.m_database.track_locations,
        l.id = t.location → l.location ≠ "/music/b.mp3") ∧
    twoLocationsDao.getTrackId "/music/b.mp3" = 1 ∧
    twoLocationsDao.trackExistsInDatabase "/music/b.mp3" = true ∧
    twoLocationsDao.getTrackLocation 1 = "/music/a.mp3" := by
  decide

/-- C4: cache uniqueness.  For every state of the store and the cache and
every track id, a second `getTrack` returns the pointer the first one
returned (or both return NULL); and from a cache that holds no id twice and
whose objects carry their cache key as id, the cache is such after any
sequence of `getTrack` calls. -/
theorem cache_uniqueness (cv : FloatConv) (dao : TrackDAO) (id : Int) :
    ((dao.getTrack cv id).2.getTrack cv id).1 = (dao.getTrack cv id).1 ∧
    (dao.cacheUnique → dao.cacheKeyed → ∀ ids : List Int,
      (dao.getTracks cv ids).cacheUnique ∧ (dao.getTracks cv ids).cacheKeyed) := by
  refine ⟨?_, fun hu hk ids => getTracks_inv cv ids dao hu hk⟩
  cases hc : cacheLookup dao.m_tracks id with
  | some p =>
    have h1 : dao.getTrack cv id = (some p, dao) := by
      unfold TrackDAO.getTrack; rw [hc]
    rw [h1]
    exact congrArg Prod.fst h1
  | none =>
    have h1 : dao.getTrack cv id = dao.getTrackFromDB cv (selectTrack dao.m_database id) := by
      unfold TrackDAO.getTrack; rw [hc]
    by_cases hrows : selectTrack dao.m_database id = []
    · have h2 : dao.getTrack cv id = (none, dao) := by rw [h1, hrows]; rfl
      rw [h2]
      exact congrArg Prod.fst h2
    · obtain ⟨p, hp1, hp2⟩ := getTrackFromDB_cached cv dao _ id hrows (selectTrack_id _ _)
      rw [h1, hp1]
      unfold TrackDAO.getTrack
      rw [hp2]

/-- Loading tracks 1, 2, 1 and the unknown id 7 from the store of P5. -/
theorem cache_uniqueness_witness :
    ((movedFileDao.getTrack plainConv 1).2.getTrack plainConv 1).1 = some 0 ∧
    (movedFileDao.getTrack plainConv 1).1 = some 0 ∧
    (movedFileDao.getTracks plainConv [1, 2, 1, 7]).m_tracks = [(2, 1), (1, 0)] ∧
    (movedFileDao.getTracks plainConv [1, 2, 1, 7]).cacheUnique ∧
    (movedFileDao.getTracks plainConv [1, 2, 1, 7]).cacheKeyed :=
  ⟨by decide, by decide, by decide,
   (cache_uniqueness plainConv movedFileDao 1).2 (by decide) (by decide) [1, 2, 1, 7]⟩

/-- C5: insert under path collision.  When the store (paths unique) already
holds the location row `L` (id not negative) for the path of the object and
the `INSERT INTO library` executes, `addTrack` leaves the table
`track_locations` as it was, with `L` the only row of that path, assigns the
object an id, and the records with that id (there is one) reference `L` and
have `mixxx_deleted` clear. -/
theorem insert_under_path_collision (dao : TrackDAO) (pTrack : TrackInfoObject)
    (L : TrackLocation) (hp : dao.m_database.pathsUnique)
    (hL : L ∈ dao.m_database.track_locations) (hLp : L.location = pTrack.location)
    (hL0 : 0 ≤ L.id) :
    ∃ dao1 t1, dao.addTrack pTrack true = some (dao1, t1) ∧
      dao1.m_database.track_locations = dao.m_database.track_locations ∧
      dao1.m_database.track_locations.filter (fun l => l.location = pTrack.location) = [L] ∧
      0 ≤ t1.id ∧ t1.id ≠ -1 ∧
      (∃ r ∈ dao1.m_database.library, r.id = t1.id) ∧
      (∀ r ∈ dao1.m_database.library, r.id = t1.id →
        r.location = L.id ∧ r.mixxx_deleted = false) := by
  have hfilter : dao.m_database.track_locations.filter
      (fun l => decide (l.location = pTrack.location)) = [L] := by
    rw [← hLp]
    exact filter_eq_singleton_of_nodup_map (fun l => l.location) _ hp L hL
  have hins : insertTrackLocation dao.m_database.track_locations pTrack =
      (dao.m_database.track_locations, L.id) := by
    unfold insertTrackLocation
    have hany : dao.m_database.track_locations.any
        (fun l => decide (l.location = pTrack.location)) = true :=
      List.any_eq_true.2 ⟨L, hL, by simpa using hLp⟩
    rw [if_pos hany, hfilter]
    rfl
  have hok := addTrack_ok_eq dao pTrack (by rw [hins]; exact hL0)
  rw [hins] at hok
  have hpos := lastInsertId_pos (dao.m_database.library.map (fun r => r.id))
  refine ⟨_, _, hok, rfl, hfilter, le_of_lt hpos, ?_, ?_, ?_⟩
  · show lastInsertId (dao.m_database.library.map (fun r => r.id)) ≠ -1
    omega
  · exact ⟨_, List.mem_append_right _ (List.mem_singleton_self _), rfl⟩
  · intro r hr hid
    rcases List.mem_append.1 hr with h | h
    · have := lastInsertId_fresh _ r.id (List.mem_map.2 ⟨r, h, rfl⟩)
      exact absurd hid (ne_of_lt this)
    · rw [List.mem_singleton.1 h]
      exact ⟨rfl, rfl⟩

/-- Adding the track at `/music/song.mp3` to a store that knows the path. -/
theorem insert_under_path_collision_witness :
    knownSongDao.m_database.pathsUnique ∧
    ∃ dao1 t1, knownSongDao.addTrack songTrack true = some (dao1, t1) ∧
      dao1.m_database.track_locations = knownSongDao.m_database.track_locations ∧
      dao1.m_database.track_locations.filter (fun l => l.location = songTrack.location) =
        [{ id := 1, location := "/music/song.mp3", directory := "/music",
           filename := "song.mp3", filesize := 400, fs_deleted := false,
           needs_verification := false }] ∧
      0 ≤ t1.id ∧ t1.id ≠ -1 ∧
      (∃ r ∈ dao1.m_database.library, r.id = t1.id) ∧
      (∀ r ∈ dao1.m_database.library, r.id = t1.id →
        r.location = 1 ∧ r.mixxx_deleted = false) :=
  ⟨by decide,
   insert_under_path_collision knownSongDao songTrack _ (by decide)
     (List.mem_singleton_self _) (by decide) (by decide)⟩

/-- C6 at the failing input: on the empty store, `addTrack` of the track at
`/music/song.mp3` assigns id 1; after `removeTrack 1` a second `addTrack` for
the same path assigns id 2 to the object and inserts a second record for
location 1, and record 1 still has `mixxx_deleted` set.  When the second
`INSERT INTO library` fails instead, the object keeps id `-1` and record 1
still has `mixxx_deleted` set. -/
theorem readd_does_not_reuse_id :
    (readdAfterRemove (daoOf [] []) songTrack true).map (fun r => r.1) = some 1 ∧
    (readdAfterRemove (daoOf [] []) songTrack true).map (fun r => r.2.2.id) = some 2 ∧
    (readdAfterRemove (daoOf [] []) songTrack true).map
        (fun r => r.2.1.m_database.library.map (fun x => (x.id, x.location, x.mixxx_deleted))) =
      some [(1, 1, true), (2, 1, false)] ∧
    (readdAfterRemove (daoOf [] []) songTrack false).map (fun r => r.1) = some 1 ∧
    (readdAfterRemove (daoOf [] []) songTrack false).map (fun r => r.2.2.id) = some (-1) ∧
    (readdAfterRemove (daoOf [] []) songTrack false).map
        (fun r => r.2.1.m_database.library.map (fun x => (x.id, x.location, x.mixxx_deleted))) =
      some [(1, 1, true)] := by
  decide

theorem getCuesForTrack_saveTrackCues_other (cues : List (Int × List Cue)) (trackId k : Int)
    (pTrack : TrackInfoObject) (hk : k ≠ trackId) :
    CueDAO.getCuesForTrack (CueDAO.saveTrackCues cues trackId pTrack) k =
      CueDAO.getCuesForTrack cues k := by
  have hfind : ((trackId, pTrack.cuePoints) :: cues.filter (fun e => e.1 ≠ trackId)).find?
      (fun e => decide (e.1 = k)) = cues.find? (fun e => decide (e.1 = k)) := by
    rw [List.find?_cons_of_neg _ (by simpa using fun h : trackId = k => hk h.symm),
      List.find?_filter]
    congr 1
    funext e
    by_cases hek : e.1 = k
    · have : e.1 ≠ trackId := fun h => hk (hek.symm.trans h)
      simp [hek, hk]
    · simp [hek]
  unfold CueDAO.getCuesForTrack CueDAO.saveTrackCues
  rw [hfind]

/-- C7: saving a clean object is a no-op.  `saveTrack` of an object with an id
other than `-1` and `dirty` clear returns the whole state (both tables, the
cue store, heap and cache) and the object as they were.  `saveTrack` of a
dirty object with an assigned id, the `UPDATE` executing, leaves
`track_locations`, heap and cache as they were; in `library` it replaces each
record with that id by the record with the same id, location reference and
`mixxx_deleted` and with artist, title, album, year, genre, track number,
comment, url, duration, bitrate, sample rate, cue point, bpm, wave summary,
channels and header-parsed flag of the object, and leaves every other record
as it was; it stores the object's cue points under its id, leaves the cue
points of every other id as they were, and returns the object with `dirty`
clear.  When the `UPDATE` fails, state and object are as they were. -/
theorem save_clean_is_noop (dao : TrackDAO) (pTrack : TrackInfoObject) (execOk : Bool) :
    (pTrack.id ≠ -1 → pTrack.dirty = false →
      dao.saveTrack pTrack execOk = some (dao, pTrack)) ∧
    (0 ≤ pTrack.id → pTrack.dirty = true →
      ∃ dao1, dao.saveTrack pTrack true = some (dao1, { pTrack with dirty := false }) ∧
        dao1.m_database.track_locations = dao.m_database.track_locations ∧
        dao1.heap = dao.heap ∧ dao1.m_tracks = dao.m_tracks ∧
        dao1.m_database.library = dao.m_database.library.map
          (fun r => if r.id = pTrack.id then
            { id := r.id, artist := pTrack.artist, title := pTrack.title,
              album := pTrack.album, year := pTrack.year, genre := pTrack.genre,
              tracknumber := pTrack.trackNumber, location := r.location,
              comment := pTrack.comment, url := pTrack.url, duration := pTrack.duration,
              bitrate := pTrack.bitrate, samplerate := pTrack.sampleRate,
              cuepoint := pTrack.cuePoint, bpm := pTrack.bpm,
              wavesummaryhex := pTrack.waveSummary, channels := pTrack.channels,
              mixxx_deleted := r.mixxx_deleted, header_parsed := pTrack.headerParsed }
            else r) ∧
        dao1.m_database.library = dao.m_database.library.map
          (fun r => if r.id = pTrack.id then updateRow r pTrack else r) ∧
        (∀ r ∈ dao.m_database.library, r.id ≠ pTrack.id → r ∈ dao1.m_database.library) ∧
        (∀ r ∈ dao.m_database.library, r.id = pTrack.id →
          updateRow r pTrack ∈ dao1.m_database.library) ∧
        (∀ r : LibraryRow, updateRow r pTrack =
          { id := r.id, artist := pTrack.artist, title := pTrack.title,
            album := pTrack.album, year := pTrack.year, genre := pTrack.genre,
            tracknumber := pTrack.trackNumber, location := r.location,
            comment := pTrack.comment, url := pTrack.url, duration := pTrack.duration,
            bitrate := pTrack.bitrate, samplerate := pTrack.sampleRate,
            cuepoint := pTrack.cuePoint, bpm := pTrack.bpm,
            wavesummaryhex := pTrack.waveSummary, channels := pTrack.channels,
            mixxx_deleted := r.mixxx_deleted, header_parsed := pTrack.headerParsed }) ∧
        CueDAO.getCuesForTrack dao1.m_cueDao pTrack.id = pTrack.cuePoints ∧
        (∀ k : Int, k ≠ pTrack.id →
          CueDAO.getCuesForTrack dao1.m_cueDao k = CueDAO.getCuesForTrack dao.m_cueDao k)) ∧
    (0 ≤ pTrack.id → pTrack.dirty = true →
      dao.saveTrack pTrack false = some (dao, pTrack)) := by
  refine ⟨?_, ?_, ?_⟩
  · intro hid hclean
    unfold TrackDAO.saveTrack
    rw [if_pos hid, hclean]
    rfl
  · intro hid hdirty
    have hne : pTrack.id ≠ -1 := by omega
    have hsave : dao.saveTrack pTrack true = dao.updateTrack pTrack true := by
      unfold TrackDAO.saveTrack
      rw [if_pos hne, if_pos hdirty]
    have hupd : dao.updateTrack pTrack true =
        some ({ dao with
                  m_database := { dao.m_database with
                    library := dao.m_database.library.map
                      (fun r => if r.id = pTrack.id then updateRow r pTrack else r) },
                  m_cueDao := CueDAO.saveTrackCues dao.m_cueDao pTrack.id pTrack },
              { pTrack with dirty := false }) := by
      unfold TrackDAO.updateTrack
      simp only [ge_iff_le, hid, if_true]
    refine ⟨_, hsave.trans hupd, rfl, rfl, rfl, rfl, rfl, ?_, ?_, fun r => rfl, ?_, ?_⟩
    · intro r hr hrid
      exact List.mem_map.2 ⟨r, hr, by rw [if_neg hrid]⟩
    · intro r hr hrid
      exact List.mem_map.2 ⟨r, hr, by rw [if_pos hrid]⟩
    · simp [CueDAO.getCuesForTrack, CueDAO.saveTrackCues]
    · intro k hk
      exact getCuesForTrack_saveTrackCues_other _ _ _ _ hk
  · intro hid hdirty
    have hne : pTrack.id ≠ -1 := by omega
    unfold TrackDAO.saveTrack
    rw [if_pos hne, if_pos hdirty]
    unfold TrackDAO.updateTrack
    simp only [ge_iff_le, hid, if_true]
    rfl

/-- Saving the clean and the edited object of track 1. -/
theorem save_clean_is_noop_witness :
    knownSongDao.saveTrack { editedTrack with dirty := false } true =
      some (knownSongDao, { editedTrack with dirty := false }) ∧
    (knownSongDao.saveTrack editedTrack true).map (fun r => r.1.m_database.library) =
      some [{ plainRow 1 1 true with artist := "Artist", title := "Edited" }] ∧
    (knownSongDao.saveTrack editedTrack true).map (fun r => r.2.dirty) = some false ∧
    knownSongDao.saveTrack editedTrack false = some (knownSongDao, editedTrack) :=
  ⟨(save_clean_is_noop knownSongDao { editedTrack with dirty := false } true).1
     (by decide) (by decide),
   by decide, by decide,
   (save_clean_is_noop knownSongDao editedTrack false).2.2 (by decide) (by decide)⟩

theorem cacheLookup_eq_none (m : List (Int × Nat)) (id : Int) (h : ∀ e ∈ m, e.1 ≠ id) :
    cacheLookup m id = none := by
  unfold cacheLookup
  rw [Option.map_eq_none', List.find?_eq_none]
  intro e he
  simpa using h e he

/-- The joined read of `getTrack` for the id `addTrack` just assigned: the new
record and the location row it references. -/
theorem selectTrack_after_addTrack (locs1 : List TrackLocation) (library : List LibraryRow)
    (row : LibraryRow) (L1 : TrackLocation)
    (hu : (locs1.map (fun l => l.id)).Nodup) (hL1 : L1 ∈ locs1) (hid : L1.id = row.location)
    (hfresh : ∀ r ∈ library, r.id ≠ row.id) :
    selectTrack { track_locations := locs1, library := library ++ [row] } row.id =
      [(row, L1)] := by
  unfold selectTrack
  rw [List.flatMap_append]
  have h1 : library.flatMap (fun t =>
      (locs1.filter (fun l => decide (t.location = l.id ∧ t.id = row.id))).map
        (fun l => (t, l))) = [] := by
    rw [List.flatMap_eq_nil_iff]
    intro t ht
    rw [List.map_eq_nil_iff, List.filter_eq_nil_iff]
    intro l _ hl
    simp only [decide_eq_true_eq] at hl
    exact hfresh t ht hl.2
  have h2 : locs1.filter (fun l => decide (row.location = l.id ∧ row.id = row.id)) = [L1] := by
    rw [← filter_eq_singleton_of_nodup_map (fun l => l.id) locs1 hu L1 hL1]
    apply List.filter_congr
    intro l _
    simp only [and_true, hid]
    by_cases h : l.id = row.location
    · simp [h]
    · have h2 : ¬ row.location = l.id := fun h3 => h h3.symm
      simp [h, h2]
  show library.flatMap (fun t =>
      (locs1.filter (fun l => decide (t.location = l.id ∧ t.id = row.id))).map
        (fun l => (t, l))) ++
    ((locs1.filter (fun l => decide (row.location = l.id ∧ row.id = row.id))).map
      (fun l => (row, l)) ++ []) = [(row, L1)]
  rw [h1, h2]
  rfl

theorem toInt_of_isInt (v : Int) (h : isInt v) : toInt v = v := by
  unfold toInt
  obtain ⟨h1, h2⟩ := h
  omega

/-- C8 (as amended): insert-then-load round trip.  In a store whose location
ids are a key and not negative, `addTrack` of an object (its `int` members C
`int`s), the `INSERT INTO library` executing, assigns it an id that is not
negative and clears `dirty`.  When the cache holds a pointer under that id,
`getTrack` of the id returns that pointer and changes nothing.  When it holds
none, `getTrack` returns a new clean object with that id and the artist,
title, album, year, genre, track number, comment, URL, duration, bitrate,
sample rate, channel count, header-parsed flag and location path of the
inserted object; its file size is that of the inserted object when the path
had no location row before the insert, and the size stored in the existing
location row of that path, read as a C `int`, otherwise (paths unique). -/
theorem insert_then_load_round_trip (cv : FloatConv) (dao : TrackDAO)
    (pTrack : TrackInfoObject)
    (hu : dao.m_database.locationIdsUnique) (hn : dao.m_database.locationIdsNonneg)
    (ht : pTrack.intsInRange) :
    ∃ dao1 t1, dao.addTrack pTrack true = some (dao1, t1) ∧ 0 ≤ t1.id ∧ t1.dirty = false ∧
      (∀ p : Nat, cacheLookup dao.m_tracks t1.id = some p →
        dao1.getTrack cv t1.id = (some p, dao1)) ∧
      (cacheLookup dao.m_tracks t1.id = none →
        ∃ p o, (dao1.getTrack cv t1.id).1 = some p ∧
          (dao1.getTrack cv t1.id).2.heap[p]? = some o ∧
          o.id = t1.id ∧ o.dirty = false ∧
          o.artist = pTrack.artist ∧ o.title = pTrack.title ∧ o.album = pTrack.album ∧
          o.year = pTrack.year ∧ o.genre = pTrack.genre ∧
          o.trackNumber = pTrack.trackNumber ∧ o.comment = pTrack.comment ∧
          o.url = pTrack.url ∧ o.duration = pTrack.duration ∧
          o.bitrate = pTrack.bitrate ∧ o.sampleRate = pTrack.sampleRate ∧
          o.channels = pTrack.channels ∧ o.headerParsed = pTrack.headerParsed ∧
          o.location = pTrack.location ∧
          ((∀ l ∈ dao.m_database.track_locations, l.location ≠ pTrack.location) →
            o.length = pTrack.length) ∧
          (dao.m_database.pathsUnique → ∀ l ∈ dao.m_database.track_locations,
            l.location = pTrack.location → o.length = toInt l.filesize)) := by
  have hnn := insertTrackLocation_nonneg dao.m_database.track_locations pTrack hn
  have hok := addTrack_ok_eq dao pTrack hnn
  obtain ⟨L1, hL1, hL1id, hL1p⟩ := insertTrackLocation_resolves _ _ hnn
  obtain ⟨hd, hb, hs, hc, hl⟩ := ht
  have hfresh : ∀ r ∈ dao.m_database.library,
      r.id ≠ lastInsertId (dao.m_database.library.map (fun r : LibraryRow => r.id)) :=
    fun r hr => ne_of_lt (lastInsertId_fresh _ r.id (List.mem_map.2 ⟨r, hr, rfl⟩))
  have hsel := selectTrack_after_addTrack
    (insertTrackLocation dao.m_database.track_locations pTrack).1 dao.m_database.library
    (newLibraryRow (lastInsertId (dao.m_database.library.map (fun r : LibraryRow => r.id)))
      (insertTrackLocation dao.m_database.track_locations pTrack).2 pTrack) L1
    (insertTrackLocation_idsUnique _ _ hu) hL1 hL1id hfresh
  have hsel2 : selectTrack
      { track_locations := (insertTrackLocation dao.m_database.track_locations pTrack).1,
        library := dao.m_database.library ++
          [newLibraryRow (lastInsertId (dao.m_database.library.map (fun r : LibraryRow => r.id)))
            (insertTrackLocation dao.m_database.track_locations pTrack).2 pTrack] }
      (lastInsertId (dao.m_database.library.map (fun r : LibraryRow => r.id))) = _ := hsel
  refine ⟨_, _, hok, le_of_lt (lastInsertId_pos _), rfl, ?_, ?_⟩
  · intro p hp
    unfold TrackDAO.getTrack
    simp only [hp]
  · intro hmiss
    refine ⟨dao.heap.length,
      trackOfRow cv (CueDAO.saveTrackCues dao.m_cueDao
        (lastInsertId (dao.m_database.library.map (fun r : LibraryRow => r.id))) pTrack)
        (newLibraryRow (lastInsertId (dao.m_database.library.map (fun r : LibraryRow => r.id)))
          (insertTrackLocation dao.m_database.track_locations pTrack).2 pTrack, L1), ?_, ?_,
      rfl, rfl, rfl, rfl, rfl, rfl, rfl, rfl, rfl, rfl, toInt_of_isInt _ hd,
      toInt_of_isInt _ hb, toInt_of_isInt _ hs, toInt_of_isInt _ hc, rfl, hL1p, ?_, ?_⟩
    · unfold TrackDAO.getTrack
      simp only [hmiss]
      rw [hsel2]
      rfl
    · unfold TrackDAO.getTrack
      simp only [hmiss]
      rw [hsel2]
      exact List.getElem?_concat_length _ _
    · intro hnew
      show toInt L1.filesize = pTrack.length
      rcases insertTrackLocation_cases dao.m_database.track_locations pTrack with
        ⟨⟨l, hl1, hlp⟩, -⟩ | ⟨-, heq⟩
      · exact absurd hlp (hnew l hl1)
      · rw [heq] at hL1
        rcases List.mem_append.1 hL1 with h | h
        · exact absurd hL1p (hnew L1 h)
        · rw [List.mem_singleton.1 h]
          exact toInt_of_isInt _ hl
    · intro hpu l hl1 hlp
      show toInt L1.filesize = toInt l.filesize
      rcases insertTrackLocation_cases dao.m_database.track_locations pTrack with
        ⟨-, heq⟩ | ⟨hnew, -⟩
      · rw [heq] at hL1
        rw [eq_of_mem_of_nodup_map _ _ hpu L1 l hL1 hl1 (hL1p.trans hlp.symm)]
      · exact absurd hlp (hnew l hl1)

/-- The track at `/music/song.mp3`, size 500, inserted into the empty store. -/
theorem insert_then_load_round_trip_witness :
    songTrack.intsInRange ∧ songTrack.length = 500 ∧
    cacheLookup (daoOf [] []).m_tracks 1 = none ∧
    ∃ dao1 t1, (daoOf [] []).addTrack songTrack true = some (dao1, t1) ∧ 0 ≤ t1.id ∧
      t1.dirty = false ∧
      (∀ p : Nat, cacheLookup (daoOf [] []).m_tracks t1.id = some p →
        dao1.getTrack plainConv t1.id = (some p, dao1)) ∧
      (cacheLookup (daoOf [] []).m_tracks t1.id = none →
        ∃ p o, (dao1.getTrack plainConv t1.id).1 = some p ∧
          (dao1.getTrack plainConv t1.id).2.heap[p]? = some o ∧
          o.id = t1.id ∧ o.dirty = false ∧
          o.artist = songTrack.artist ∧ o.title = songTrack.title ∧
          o.album = songTrack.album ∧
          o.year = songTrack.year ∧ o.genre = songTrack.genre ∧
          o.trackNumber = songTrack.trackNumber ∧ o.comment = songTrack.comment ∧
          o.url = songTrack.url ∧ o.duration = songTrack.duration ∧
          o.bitrate = songTrack.bitrate ∧ o.sampleRate = songTrack.sampleRate ∧
          o.channels = songTrack.channels ∧ o.headerParsed = songTrack.headerParsed ∧
          o.location = songTrack.location ∧
          ((∀ l ∈ (daoOf [] []).m_database.track_locations,
              l.location ≠ songTrack.location) →
            o.length = songTrack.length) ∧
          ((daoOf [] []).m_database.pathsUnique →
            ∀ l ∈ (daoOf [] []).m_database.track_locations,
              l.location = songTrack.location → o.length = toInt l.filesize)) :=
  ⟨by decide, by decide, by decide,
   insert_then_load_round_trip plainConv (daoOf [] []) songTrack
     (by decide) (by decide) (by decide)⟩

/-- C8 as stated fails in two ways.  The store knows `/music/song.mp3` with
size 400; the object inserted at that path has size 500; the insert succeeds
with id 2, and `getTrack 2` returns an object of size 400.  And in the store
of P5 after `getTrack 2` and `detectMovedFiles`, the cache holds pointer 0
under id 2 while record 2 is deleted; the insert succeeds with id 2 again, and
`getTrack 2` returns pointer 0, the object loaded for the deleted record. -/
theorem insert_then_load_keeps_stored_size :
    songTrack.id = -1 ∧ songTrack.length = 500 ∧
    (knownSongDao.addTrack songTrack true).map (fun r => r.2.id) = some 2 ∧
    (knownSongDao.addTrack songTrack true).map
        (fun r => (r.1.getTrack plainConv r.2.id).1) = some (some 0) ∧
    (knownSongDao.addTrack songTrack true).map
        (fun r => (r.1.getTrack plainConv r.2.id).2.heap.map
          (fun o => (o.id, o.location, o.length))) =
      some [(2, "/music/song.mp3", 400)] ∧
    staleCacheDao.m_tracks = [(2, 0)] ∧
    staleCacheDao.m_database.library.map (fun r => r.id) = [1] ∧
    (staleCacheDao.addTrack songTrack true).map (fun r => r.2.id) = some 2 ∧
    (staleCacheDao.addTrack songTrack true).map
        (fun r => (r.1.getTrack plainConv r.2.id).1) = some (some 0) ∧
    (staleCacheDao.addTrack songTrack true).map
        (fun r => (r.1.getTrack plainConv r.2.id).2.heap.map
          (fun o => (o.id, o.artist, o.location, o.length))) =
      some [(2, "", "b.mp3", 1000)] := by
  decide

/-- C9: removal is logical and local.  For every state and every id that is
not negative, `removeTrack` sets `mixxx_deleted` on the records with that id
and changes nothing else: `track_locations`, the cue store, heap and cache are
as before, the table `library` has the same rows in the same places with every
other column (the location reference too) as before, and `getTrackLocation` of
every track id returns what it returned before. -/
theorem removal_is_logical_and_local (dao : TrackDAO) (id : Int) (h : 0 ≤ id) :
    ∃ dao1, dao.removeTrack id = some dao1 ∧
      dao1.m_database.track_locations = dao.m_database.track_locations ∧
      dao1.m_cueDao = dao.m_cueDao ∧ dao1.heap = dao.heap ∧ dao1.m_tracks = dao.m_tracks ∧
      dao1.m_database.library = dao.m_database.library.map
        (fun r => if r.id = id then { r with mixxx_deleted := true } else r) ∧
      dao1.m_database.library.length = dao.m_database.library.length ∧
      (∀ r ∈ dao.m_database.library, r.id ≠ id → r ∈ dao1.m_database.library) ∧
      (∀ r ∈ dao.m_database.library, r.id = id →
        { r with mixxx_deleted := true } ∈ dao1.m_database.library) ∧
      (∀ r ∈ dao1.m_database.library, r.id = id → r.mixxx_deleted = true) ∧
      (∀ trackId : Int, dao1.getTrackLocation trackId = dao.getTrackLocation trackId) := by
  have hrm : dao.removeTrack id = some { dao with m_database :=
      { dao.m_database with
        library := setMixxxDeleted dao.m_database.library id true } } := by
    unfold TrackDAO.removeTrack
    rw [if_pos h]
  refine ⟨_, hrm, rfl, rfl, rfl, rfl, rfl, ?_, ?_, ?_, ?_, ?_⟩
  · simp [setMixxxDeleted]
  · intro r hr hrid
    exact List.mem_map.2 ⟨r, hr, by rw [if_neg hrid]⟩
  · intro r hr hrid
    exact List.mem_map.2 ⟨r, hr, by rw [if_pos hrid]⟩
  · intro r hr hrid
    obtain ⟨r0, -, rfl⟩ := List.mem_map.1 hr
    by_cases h0 : r0.id = id
    · rw [if_pos h0]
    · rw [if_neg h0] at hrid
      exact absurd hrid h0
  · intro trackId
    unfold TrackDAO.getTrackLocation
    simp only [setMixxxDeleted]
    congr 1
    apply List.flatMap_congr
    intro l _
    rw [List.filter_map, List.map_map]
    have hp : ((fun t : LibraryRow => decide (t.location = l.id ∧ t.id = trackId)) ∘
        (fun r : LibraryRow => if r.id = id then { r with mixxx_deleted := true } else r)) =
        (fun t : LibraryRow => decide (t.location = l.id ∧ t.id = trackId)) := by
      funext r
      simp only [Function.comp]
      split <;> rfl
    rw [hp]
    rfl

/-- Removing track 1 from the store of P5. -/
theorem removal_is_logical_and_local_witness :
    ∃ dao1, movedFileDao.removeTrack 1 = some dao1 ∧
      dao1.m_database.track_locations = movedFileDao.m_database.track_locations ∧
      dao1.m_cueDao = movedFileDao.m_cueDao ∧ dao1.heap = movedFileDao.heap ∧
      dao1.m_tracks = movedFileDao.m_tracks ∧
      dao1.m_database.library = movedFileDao.m_database.library.map
        (fun r => if r.id = 1 then { r with mixxx_deleted := true } else r) ∧
      dao1.m_database.library.length = movedFileDao.m_database.library.length ∧
      (∀ r ∈ movedFileDao.m_database.library, r.id ≠ 1 → r ∈ dao1.m_database.library) ∧
      (∀ r ∈ movedFileDao.m_database.library, r.id = 1 →
        { r with mixxx_deleted := true } ∈ dao1.m_database.library) ∧
      (∀ r ∈ dao1.m_database.library, r.id = 1 → r.mixxx_deleted = true) ∧
      (∀ trackId : Int, dao1.getTrackLocation trackId = movedFileDao.getTrackLocation trackId) :=
  removal_is_logical_and_local movedFileDao 1 (by decide)

/-- C10 at the failing input: the deleted `x.mp3` (location 3, track 1) has the
two candidates 4 and 5, each with the record the scanner added (2 and 3).
The assertion on `size()` does not fire; `detectMovedFiles` commits with the
row of location 3 deleted, record 3 (the one at the last candidate) deleted
and track 1 repointed to location 5. -/
theorem ambiguous_move_is_guessed :
    ambiguousMoveDao.m_database.locationIdsUnique ∧
    ambiguousMoveDao.m_database.trackIdsUnique ∧
    ambiguousMoveDao.m_database.pathsUnique ∧
    ambiguousMoveDao.m_database.refsValid ∧
    locationX.fs_deleted = true ∧
    (moveCandidates ambiguousMoveDao.m_database locationX).map (fun l => l.id) = [4, 5] ∧
    ambiguousMoveDao.m_database.library.map (fun r => (r.id, r.location)) =
      [(1, 3), (2, 4), (3, 5)] ∧
    ambiguousMoveDao.detectMovedFiles.map
        (fun d => d.m_database.track_locations.map (fun l => l.id)) = some [4, 5] ∧
    ambiguousMoveDao.detectMovedFiles.map
        (fun d => d.m_database.library.map (fun r => (r.id, r.location))) =
      some [(1, 5), (2, 4)] := by
  decide

/-! ## The scan cycle -/

theorem markAllVerified_locations (observed : List String) (dao : TrackDAO) :
    (dao.markAllVerified observed).m_database.track_locations =
      dao.m_database.track_locations.map
        (fun l => if l.location ∈ observed
                  then { l with needs_verification := false, fs_deleted := false } else l) := by
  induction observed generalizing dao with
  | nil => simp [TrackDAO.markAllVerified]
  | cons p rest ih =>
    have hstep : dao.markAllVerified (p :: rest) =
        (dao.markTrackLocationAsVerified p).markAllVerified rest := rfl
    rw [hstep, ih]
    simp only [TrackDAO.markTrackLocationAsVerified, List.map_map]
    apply List.map_congr_left
    intro l _
    simp only [Function.comp, List.mem_cons]
    by_cases hp : l.location = p
    · by_cases hr : l.location ∈ rest
      · simp [hp, hr]
      · simp [hp, hr]
    · by_cases hr : l.location ∈ rest
      · simp [hp, hr]
      · simp [hp, hr]

theorem markAllVerified_rest (observed : List String) (dao : TrackDAO) :
    (dao.markAllVerified observed).m_database.library = dao.m_database.library ∧
    (dao.markAllVerified observed).m_cueDao = dao.m_cueDao ∧
    (dao.markAllVerified observed).heap = dao.heap ∧
    (dao.markAllVerified observed).m_tracks = dao.m_tracks := by
  induction observed generalizing dao with
  | nil => exact ⟨rfl, rfl, rfl, rfl⟩
  | cons p rest ih => exact ih (dao.markTrackLocationAsVerified p)

/-- C11: the scan-cycle state machine.  For every state, directory `d` and
list `S` of observed paths, after `invalidateTrackLocations d`, then
`markTrackLocationAsVerified p` for every `p` of `S`, then
`markUnverifiedTracksAsDeleted`, every location row whose directory is `d` is
the row it was with (`needs_verification`, `fs_deleted`) = (false, false) when
its path is in `S` and (true, true) when it is not.  Each of the three
operations changes at most those two flags, and `markTrackLocationAsVerified p`
leaves every row with another path as it was. -/
theorem scan_cycle_state_machine (dao : TrackDAO) (d : String) (S : List String) :
    (∀ (i : Nat) (l : TrackLocation), dao.m_database.track_locations[i]? = some l →
      l.directory = d →
      (dao.scanCycle d S).m_database.track_locations[i]? =
        some { l with needs_verification := decide (l.location ∉ S),
                      fs_deleted := decide (l.location ∉ S) }) ∧
    dao.onlyFlagsChanged (dao.invalidateTrackLocations d) ∧
    (∀ p : String, dao.onlyFlagsChanged (dao.markTrackLocationAsVerified p) ∧
      ∀ (i : Nat) (l : TrackLocation), dao.m_database.track_locations[i]? = some l →
        l.location ≠ p →
        (dao.markTrackLocationAsVerified p).m_database.track_locations[i]? = some l) ∧
    dao.onlyFlagsChanged dao.markUnverifiedTracksAsDeleted ∧
    dao.onlyFlagsChanged (dao.scanCycle d S) := by
  have hflags : ∀ (f : TrackLocation → TrackLocation) (locs : List TrackLocation),
      (∀ l, (f l).withoutFlags = l.withoutFlags) →
      (locs.map f).map TrackLocation.withoutFlags = locs.map TrackLocation.withoutFlags := by
    intro f locs hf
    rw [List.map_map]
    exact List.map_congr_left (fun l _ => hf l)
  refine ⟨?_, ⟨?_, rfl, rfl, rfl, rfl⟩, ?_, ⟨?_, rfl, rfl, rfl, rfl⟩, ?_,
    (markAllVerified_rest S (dao.invalidateTrackLocations d)).1,
    (markAllVerified_rest S (dao.invalidateTrackLocations d)).2.1,
    (markAllVerified_rest S (dao.invalidateTrackLocations d)).2.2.1,
    (markAllVerified_rest S (dao.invalidateTrackLocations d)).2.2.2⟩
  · intro i l hl hd
    have hlocs : (dao.scanCycle d S).m_database.track_locations =
        (((dao.m_database.track_locations.map
          (fun l => if l.directory = d then { l with needs_verification := true } else l)).map
          (fun l => if l.location ∈ S
                    then { l with needs_verification := false, fs_deleted := false } else l)).map
          (fun l => if l.needs_verification = true then { l with fs_deleted := true } else l)) := by
      show ((dao.invalidateTrackLocations d).markAllVerified S).m_database.track_locations.map _ = _
      rw [markAllVerified_locations]
      rfl
    rw [hlocs]
    simp only [List.getElem?_map, hl, Option.map_some']
    rw [if_pos hd]
    by_cases hS : l.location ∈ S
    · simp [hS]
    · simp [hS]
  · exact hflags _ _ (fun l => by split <;> rfl)
  · intro p
    refine ⟨⟨hflags _ _ (fun l => by split <;> rfl), rfl, rfl, rfl, rfl⟩, ?_⟩
    intro i l hl hp
    show (dao.m_database.track_locations.map _)[i]? = some l
    rw [List.getElem?_map, hl, Option.map_some', if_neg hp]
  · exact hflags _ _ (fun l => by split <;> rfl)
  · show (((dao.invalidateTrackLocations d).markAllVerified S).m_database.track_locations.map
        _).map TrackLocation.withoutFlags = _
    rw [markAllVerified_locations]
    show (((dao.m_database.track_locations.map _).map _).map _).map
      TrackLocation.withoutFlags = _
    rw [hflags _ _ (fun l => by split <;> rfl), hflags _ _ (fun l => by split <;> rfl),
      hflags _ _ (fun l => by split <;> rfl)]

/-- A cycle over the directory `.` of a store with `a.mp3` and `b.mp3` in it,
in which the scanner sees `a.mp3` only. -/
theorem scan_cycle_state_machine_witness :
    ((daoOf [locationA, locationB, locationX] []).scanCycle "." ["a.mp3"]).m_database.track_locations[0]? =
      some { locationA with needs_verification := decide (locationA.location ∉ ["a.mp3"]),
                            fs_deleted := decide (locationA.location ∉ ["a.mp3"]) } ∧
    ((daoOf [locationA, locationB, locationX] []).scanCycle "." ["a.mp3"]).m_database.track_locations[1]? =
      some { locationB with needs_verification := decide (locationB.location ∉ ["a.mp3"]),
                            fs_deleted := decide (locationB.location ∉ ["a.mp3"]) } ∧
    ((daoOf [locationA, locationB, locationX] []).scanCycle "." ["a.mp3"]).m_database.track_locations.map
        (fun l => (l.id, l.needs_verification, l.fs_deleted)) =
      [(1, false, false), (2, true, true), (3, true, true)] :=
  ⟨(scan_cycle_state_machine (daoOf [locationA, locationB, locationX] []) "." ["a.mp3"]).1
     0 locationA (by decide) (by decide),
   (scan_cycle_state_machine (daoOf [locationA, locationB, locationX] []) "." ["a.mp3"]).1
     1 locationB (by decide) (by decide),
   by decide⟩

/-- C12 at the failing input: the store (ids and paths unique, every record
referencing an existing location row) holds two copies of `song.mp3` deleted
on disk, locations 1 and 3, each with the single candidate location 2, track 1
at location 1, the stray track 2 at location 2 and track 3 at location 3.
`detectMovedFiles` commits, and the table `library` is left with the one
record 3, now at location 2: track 1, which referenced a location deleted on
disk, no longer exists. -/
theorem detectMovedFiles_deletes_repointed_record :
    twoDeletedCopiesDao.m_database.refsValid ∧
    twoDeletedCopiesDao.m_database.locationIdsUnique ∧
    twoDeletedCopiesDao.m_database.trackIdsUnique ∧
    twoDeletedCopiesDao.m_database.pathsUnique ∧
    twoDeletedCopiesDao.m_database.track_locations.map
        (fun l => (l.id, l.fs_deleted,
          (moveCandidates twoDeletedCopiesDao.m_database l).map (fun b => b.id))) =
      [(1, true, [2]), (2, false, [2]), (3, true, [2])] ∧
    twoDeletedCopiesDao.m_database.library.map (fun r => (r.id, r.location)) =
      [(1, 1), (2, 2), (3, 3)] ∧
    twoDeletedCopiesDao.detectMovedFiles.map (fun d => d.m_database.library) =
      some [{ plainRow 3 3 false with location := 2 }] ∧
    twoDeletedCopiesDao.detectMovedFiles.map
        (fun d => d.m_database.track_locations.map (fun l => l.id)) = some [2] := by
  decide

end Mixxx
